import Mathlib

/-
Verification of the RefractorIQ analysis core (src/backend/analysis.py,
src/backend/dependency_analysis.py, src/backend/shared_constants.py)
against its natural-language specification.

The concrete syntax trees produced by the external tree-sitter parsers are
modelled as rose trees whose nodes carry their type tag and the literal
source text of their byte span (the Python code reads
content[n.start_byte:n.end_byte]; the model stores that slice directly).
The networkx DiGraph is modelled as insertion-ordered association lists of
nodes and edges with the library's add/update semantics. Python dict and
string operations are modelled by executable Lean counterparts defined
below. Floating-point presentation fields of the metrics record (rounded
average degree, graph density) are outside the model.
-/

/-- Python substring helper: does the list start with the given pattern
(an empty pattern matches). -/
def charsStartsWith : List Char → List Char → Bool
  | _, [] => true
  | [], _ :: _ => false
  | c :: cs, p :: ps => c = p && charsStartsWith cs ps

/-- Python substring helper over char lists: pattern occurs somewhere. -/
def charsHas : List Char → List Char → Bool
  | [], pat => charsStartsWith [] pat
  | c :: cs, pat => charsStartsWith (c :: cs) pat || charsHas cs pat

/-- Model of the Python `pat in s` substring test. -/
def strHas (s pat : String) : Bool :=
  charsHas s.toList pat.toList

/-- Model of Python `module.replace('.', '/')` (single-character pattern
and replacement, hence a character map). -/
def dotsToSlashes (s : String) : String :=
  String.mk (s.toList.map (fun c => if c = '.' then '/' else c))

/-- Helper for `splitOnDot`, accumulating the current fragment reversed. -/
def splitDotAux : List Char → List Char → List String
  | [], acc => [String.mk acc.reverse]
  | c :: cs, acc =>
    if c = '.' then String.mk acc.reverse :: splitDotAux cs []
    else splitDotAux cs (c :: acc)

/-- Model of Python `s.split('.')` (always returns a nonempty list;
the split of the empty string is `[""]`, as in Python). -/
def splitOnDot (s : String) : List String := splitDotAux s.toList []

/-- String contains no colon character; repository-relative file paths
satisfy this in practice, which keeps the `file::name` and
`external::module` node-id namespaces disjoint from file ids. -/
def colonFree (s : String) : Bool := s.toList.all (fun c => c ≠ ':')

/-- Concrete syntax tree node as delivered by the tree-sitter providers:
a type tag, the literal source text of the node's byte span, and the
ordered child list. -/
inductive CSTNode where
  | mk (kind : String) (text : String) (children : List CSTNode)

/-- Type tag of a CST node (tree-sitter `node.type`). -/
def CSTNode.kind : CSTNode → String
  | .mk k _ _ => k

/-- Literal source text of the node's span (`content[n.start_byte:n.end_byte]`). -/
def CSTNode.text : CSTNode → String
  | .mk _ t _ => t

/-- Ordered children of a CST node. -/
def CSTNode.children : CSTNode → List CSTNode
  | .mk _ _ cs => cs

mutual

/-- Decidable equality for CST nodes (structural). -/
def CSTNode.decEq : (a b : CSTNode) → Decidable (a = b)
  | .mk k1 t1 c1, .mk k2 t2 c2 =>
    match String.decEq k1 k2 with
    | isFalse _ => isFalse (by simp only [CSTNode.mk.injEq]; tauto)
    | isTrue hk =>
      match String.decEq t1 t2 with
      | isFalse _ => isFalse (by simp only [CSTNode.mk.injEq]; tauto)
      | isTrue ht =>
        match CSTNode.decEqList c1 c2 with
        | isFalse _ => isFalse (by simp only [CSTNode.mk.injEq]; tauto)
        | isTrue hc => isTrue (by rw [hk, ht, hc])

/-- Decidable equality for lists of CST nodes. -/
def CSTNode.decEqList : (as bs : List CSTNode) → Decidable (as = bs)
  | [], [] => isTrue rfl
  | [], _ :: _ => isFalse (by simp)
  | _ :: _, [] => isFalse (by simp)
  | a :: as, b :: bs =>
    match CSTNode.decEq a b with
    | isFalse _ => isFalse (by simp only [List.cons.injEq]; tauto)
    | isTrue ha =>
      match CSTNode.decEqList as bs with
      | isFalse _ => isFalse (by simp only [List.cons.injEq]; tauto)
      | isTrue has => isTrue (by rw [ha, has])

end

instance : DecidableEq CSTNode := CSTNode.decEq

mutual

/-- All nodes of the subtree rooted at a node, in pre-order. Every
`def traverse(node): handle(node); for child in node.children:
traverse(child)` loop of the Python source visits exactly this list in
exactly this order, so the traversals below are phrased over it. -/
def CSTNode.subtree : CSTNode → List CSTNode
  | .mk k t cs => .mk k t cs :: CSTNode.subtreeList cs

/-- Concatenated pre-order subtrees of a list of nodes. -/
def CSTNode.subtreeList : List CSTNode → List CSTNode
  | [] => []
  | c :: cs => c.subtree ++ CSTNode.subtreeList cs

end

/-- shared_constants.FUNCTION_NODE_TYPES. -/
def FUNCTION_NODE_TYPES : List String :=
  ["function_definition", "function_declaration", "method_definition",
   "arrow_function", "method_declaration", "constructor_declaration",
   "function", "method"]

/-- shared_constants.DECISION_NODE_TYPES (a Python set; only membership is
used, so a list of its elements models it). -/
def DECISION_NODE_TYPES : List String :=
  ["if_statement", "elif_clause", "else_clause",
   "for_statement", "while_statement",
   "except_clause", "case_statement", "switch_statement",
   "conditional_expression", "ternary_expression",
   "catch_clause", "finally_clause",
   "boolean_operator", "binary_expression"]

/-- shared_constants.COMPLEXITY_THRESHOLDS. The upper bound of the
`very_high` band is `float('inf')` in the source and is never read, so
only its lower bound is modelled. -/
structure ComplexityThresholds where
  low : Nat × Nat
  medium : Nat × Nat
  high : Nat × Nat
  very_high_lo : Nat

/-- The fixed complexity thresholds of shared_constants.py. -/
def COMPLEXITY_THRESHOLDS : ComplexityThresholds :=
  { low := (1, 5), medium := (6, 10), high := (11, 20), very_high_lo := 21 }

/-- The operator fragments tested inside calculate_cyclomatic_complexity. -/
def LOGICAL_OPERATOR_TOKENS : List String := ["&&", "||", " and ", " or "]

/-- Amount added to the complexity accumulator when the traversal of
analysis.calculate_cyclomatic_complexity visits one node: decision-point
types add 1, except that the two ambiguous binary node types add 1 only
when their literal text contains one of the logical operator tokens. -/
def decisionPointValue (n : CSTNode) : Nat :=
  if n.kind ∈ DECISION_NODE_TYPES then
    if n.kind = "boolean_operator" ∨ n.kind = "binary_expression" then
      if LOGICAL_OPERATOR_TOKENS.any (fun op => strHas n.text op) then 1 else 0
    else 1
  else 0

/-- analysis.calculate_cyclomatic_complexity: base complexity 1 plus the
accumulated increments of the traversal, which visits every node of the
argument's subtree (the argument included). -/
def calculate_cyclomatic_complexity (node : CSTNode) : Nat :=
  1 + (node.subtree.map decisionPointValue).sum

/-- One recorded import statement: its kind tag, raw module string and
imported item names (dependency_analysis.py stores dicts of this shape). -/
structure ImportRec where
  importKind : String
  module : String
  items : List String
deriving DecidableEq

/-- Step function for the child scan of an `import_from_statement` in
extract_python_imports, carried state = (module, items). It mirrors the
source's if/elif chain: a `dotted_name` child always (re)assigns module,
an `import_prefix` child assigns module, and the third branch — reachable
only for `identifier` and `aliased_import` children because `dotted_name`
is consumed by the first branch — appends to items after filtering out
fragments containing `import` or `from`. -/
def pyFromImportStep (st : Option String × List String) (c : CSTNode) :
    Option String × List String :=
  if c.kind = "dotted_name" then (some c.text, st.2)
  else if c.kind = "import_prefix" then (some c.text, st.2)
  else if c.kind = "dotted_name" ∨ c.kind = "identifier" ∨ c.kind = "aliased_import" then
    if strHas c.text "import" = false ∧ strHas c.text "from" = false then
      (st.1, st.2 ++ [c.text])
    else st
  else st

/-- Imports recorded when extract_python_imports' traversal visits one
node. Python truthiness: a `from` import is recorded only when the
collected module is neither None nor the empty string. -/
def pyImportsAt (n : CSTNode) : List ImportRec :=
  if n.kind = "import_statement" then
    n.children.filterMap (fun c =>
      if c.kind = "dotted_name" then
        some { importKind := "import", module := c.text, items := [] }
      else none)
  else if n.kind = "import_from_statement" then
    let st := n.children.foldl pyFromImportStep (none, [])
    match st.1 with
    | some m =>
      if m ≠ "" then [{ importKind := "from_import", module := m, items := st.2 }] else []
    | none => []
  else []

/-- dependency_analysis.extract_python_imports: pre-order traversal
appending the records of each visited node. -/
def extract_python_imports (tree : CSTNode) : List ImportRec :=
  tree.subtree.flatMap pyImportsAt

/-- Python `s.strip('"\'')`: drop quote characters from both ends. -/
def stripQuotes (s : String) : String :=
  let isQ : Char → Bool := fun c => c = '"' || c = '\''
  String.mk (((s.toList.dropWhile isQ).reverse.dropWhile isQ).reverse)

/-- Child scan of a JavaScript `import_statement` in
extract_javascript_imports: a string child sets the module (quotes
stripped), an import_clause child appends its text to the items. -/
def jsImportStep (st : Option String × List String) (c : CSTNode) :
    Option String × List String :=
  if c.kind = "string" then (some (stripQuotes c.text), st.2)
  else if c.kind = "import_clause" then (st.1, st.2 ++ [c.text])
  else st

/-- Child scan of a `call_expression` in extract_javascript_imports,
carried state = (func_name, module): an identifier child sets the callee
name, an arguments child sets the module from each string argument. -/
def jsCallStep (st : Option String × Option String) (c : CSTNode) :
    Option String × Option String :=
  if c.kind = "identifier" then (some c.text, st.2)
  else if c.kind = "arguments" then
    (st.1, c.children.foldl (fun m arg =>
      if arg.kind = "string" then some (stripQuotes arg.text) else m) st.2)
  else st

/-- Imports recorded when extract_javascript_imports visits one node. -/
def jsImportsAt (n : CSTNode) : List ImportRec :=
  if n.kind = "import_statement" then
    let st := n.children.foldl jsImportStep (none, [])
    match st.1 with
    | some m =>
      if m ≠ "" then [{ importKind := "import", module := m, items := st.2 }] else []
    | none => []
  else if n.kind = "call_expression" then
    let st := n.children.foldl jsCallStep (none, none)
    match st.1, st.2 with
    | some fn, some m =>
      if fn = "require" ∧ m ≠ "" then
        [{ importKind := "require", module := m, items := [] }]
      else []
    | _, _ => []
  else []

/-- dependency_analysis.extract_javascript_imports. -/
def extract_javascript_imports (tree : CSTNode) : List ImportRec :=
  tree.subtree.flatMap jsImportsAt

/-- Model of Python `s.replace(pat, rep)` for a nonempty pattern, over
char lists. -/
def charsReplace (pat rep : List Char) : List Char → List Char
  | [] => []
  | c :: cs =>
    if pat ≠ [] ∧ charsStartsWith (c :: cs) pat = true then
      rep ++ charsReplace pat rep (cs.drop (pat.length - 1))
    else c :: charsReplace pat rep cs
termination_by l => l.length
decreasing_by
  · simp only [List.length_cons, List.length_drop]; omega
  · simp only [List.length_cons]; omega

/-- Model of Python `s.replace(pat, rep)`. -/
def pyReplace (s pat rep : String) : String :=
  String.mk (charsReplace pat.toList rep.toList s.toList)

/-- Model of Python `s.strip()`: trim whitespace from both ends. -/
def pyStrip (s : String) : String :=
  String.mk (((s.toList.dropWhile Char.isWhitespace).reverse.dropWhile
    Char.isWhitespace).reverse)

/-- Imports recorded when extract_java_imports visits one node: the whole
`import_declaration` text with the keyword and semicolon removed and
whitespace stripped becomes the module string. -/
def javaImportsAt (n : CSTNode) : List ImportRec :=
  if n.kind = "import_declaration" then
    [{ importKind := "import",
       module := pyStrip (pyReplace (pyReplace n.text "import" "") ";" ""),
       items := [] }]
  else []

/-- dependency_analysis.extract_java_imports. -/
def extract_java_imports (tree : CSTNode) : List ImportRec :=
  tree.subtree.flatMap javaImportsAt

/-- First child whose type is `identifier` or `property_identifier` — the
name-resolution heuristic shared by extract_functions_and_classes (for
functions) and analyze_functions. -/
def firstIdentLikeChild (n : CSTNode) : Option String :=
  (n.children.find? (fun c =>
    c.kind = "identifier" || c.kind = "property_identifier")).map CSTNode.text

/-- First child whose type is exactly `identifier` — the class-name
heuristic of extract_functions_and_classes. -/
def firstIdentChild (n : CSTNode) : Option String :=
  (n.children.find? (fun c => c.kind = "identifier")).map CSTNode.text

/-- Function names recorded when extract_functions_and_classes visits one
node (Python truthiness: an empty or missing name records nothing). -/
def functionNamesAt (n : CSTNode) : List String :=
  if n.kind ∈ FUNCTION_NODE_TYPES then
    match firstIdentLikeChild n with
    | some nm => if nm ≠ "" then [nm] else []
    | none => []
  else []

/-- Class names recorded when extract_functions_and_classes visits one
node; the source's elif makes this branch unreachable for function-typed
nodes. -/
def classNamesAt (n : CSTNode) : List String :=
  if n.kind ∈ FUNCTION_NODE_TYPES then []
  else if n.kind = "class_definition" ∨ n.kind = "class_declaration" then
    match firstIdentChild n with
    | some nm => if nm ≠ "" then [nm] else []
    | none => []
  else []

/-- dependency_analysis.extract_functions_and_classes: the pre-order
traversal's function-name and class-name lists. -/
def extract_functions_and_classes (tree : CSTNode) : List String × List String :=
  (tree.subtree.flatMap functionNamesAt, tree.subtree.flatMap classNamesAt)

/-- Attribute dictionary of a graph node; `none` models an absent key, so
`nodeKind` is the `type` attribute read back by `G.nodes[n].get('type')`. -/
structure NodeAttrs where
  nodeKind : Option String := none
  language : Option String := none
  name : Option String := none
  file : Option String := none
  module : Option String := none
deriving DecidableEq

/-- Attribute dictionary of a graph edge. -/
structure EdgeAttrs where
  relationship : Option String := none
  module : Option String := none
deriving DecidableEq

/-- Python dict update: keys provided by the new dict override. -/
def NodeAttrs.updateWith (old new : NodeAttrs) : NodeAttrs :=
  { nodeKind := new.nodeKind <|> old.nodeKind
    language := new.language <|> old.language
    name := new.name <|> old.name
    file := new.file <|> old.file
    module := new.module <|> old.module }

/-- Python dict update for edge attributes. -/
def EdgeAttrs.updateWith (old new : EdgeAttrs) : EdgeAttrs :=
  { relationship := new.relationship <|> old.relationship
    module := new.module <|> old.module }

/-- One directed edge with its attributes. -/
abbrev GEdge := String × String × EdgeAttrs

/-- Model of the networkx DiGraph built by dependency_analysis: an
insertion-ordered node list keyed by node id and an insertion-ordered
edge list keyed by the (source, target) pair. -/
structure Graph where
  nodes : List (String × NodeAttrs)
  edges : List GEdge
deriving DecidableEq

/-- The empty DiGraph. -/
def Graph.empty : Graph := { nodes := [], edges := [] }

/-- Membership test for a node id. -/
def Graph.hasNode (G : Graph) (id : String) : Bool :=
  G.nodes.any (fun x => x.1 = id)

/-- networkx `G.add_node(id, **attrs)`: update the attribute dict of an
existing node in place, else append a new node. -/
def Graph.add_node (G : Graph) (id : String) (a : NodeAttrs) : Graph :=
  if G.hasNode id then
    { G with nodes := G.nodes.map (fun x => if x.1 = id then (x.1, x.2.updateWith a) else x) }
  else { G with nodes := G.nodes ++ [(id, a)] }

/-- networkx adds missing edge endpoints as attribute-less nodes. -/
def Graph.ensureNode (G : Graph) (id : String) : Graph :=
  if G.hasNode id then G else { G with nodes := G.nodes ++ [(id, {})] }

/-- Membership test for an edge keyed by (source, target). -/
def Graph.hasEdge (G : Graph) (u v : String) : Bool :=
  G.edges.any (fun e => e.1 = u && e.2.1 = v)

/-- networkx `G.add_edge(u, v, **attrs)`: add missing endpoints, then
update the attributes of an existing (u, v) edge in place, else append. -/
def Graph.add_edge (G : Graph) (u v : String) (a : EdgeAttrs) : Graph :=
  let G1 := (G.ensureNode u).ensureNode v
  if G1.hasEdge u v then
    { G1 with edges := G1.edges.map (fun e =>
        if e.1 = u && e.2.1 = v then (e.1, e.2.1, e.2.2.updateWith a) else e) }
  else { G1 with edges := G1.edges ++ [(u, v, a)] }

/-- Attribute lookup `G.nodes[id]` (None when absent). -/
def Graph.nodeAttrs (G : Graph) (id : String) : Option NodeAttrs :=
  (G.nodes.find? (fun x => x.1 = id)).map (fun x => x.2)

/-- The `G.nodes[id].get('type')` read used throughout the source. -/
def Graph.nodeTypeOf (G : Graph) (id : String) : Option String :=
  (G.nodeAttrs id).bind (fun a => a.nodeKind)

/-- networkx `G.remove_nodes_from(ids)`: drop the nodes and every edge
incident to one of them. -/
def Graph.remove_nodes_from (G : Graph) (ids : List String) : Graph :=
  { nodes := G.nodes.filter (fun x => x.1 ∉ ids)
    edges := G.edges.filter (fun e => e.1 ∉ ids ∧ e.2.1 ∉ ids) }

/-- networkx `G.out_degree(id)` (simple digraph: one edge per pair). -/
def Graph.outDegree (G : Graph) (id : String) : Nat :=
  (G.edges.filter (fun e => e.1 = id)).length

/-- networkx `G.in_degree(id)`. -/
def Graph.inDegree (G : Graph) (id : String) : Nat :=
  (G.edges.filter (fun e => e.2.1 = id)).length

/-- Successor list of a node. -/
def Graph.succs (G : Graph) (u : String) : List String :=
  G.edges.filterMap (fun e => if e.1 = u then some e.2.1 else none)

/-- The extraction results retained for one file after pass 1
(`file_data[rel_path]`). -/
structure FileData where
  imports : List ImportRec
  functions : List String
  classes : List String
deriving DecidableEq

/-- One file yielded by the os.walk of the repository, as the analysis
core sees it: its repository-relative path ('/'-separated), its extension
(`os.path.splitext`), the two externally computed exclusion predicates
(`is_third_party_file`, `is_test_file`), and the parse outcome — `none`
when reading, parsing or extraction raises, which the source's
try/except turns into skipping the file. -/
structure FileInput where
  relPath : String
  ext : String
  isThirdParty : Bool
  isTest : Bool
  parsed : Option CSTNode
deriving DecidableEq

/-- The extensions dispatched to a parser. -/
def SUPPORTED_EXTENSIONS : List String := [".py", ".js", ".ts", ".java"]

/-- Language dispatch of the import extraction in build_dependency_graph. -/
def importsForExt (ext : String) (tree : CSTNode) : List ImportRec :=
  if ext = ".py" then extract_python_imports tree
  else if ext = ".js" ∨ ext = ".ts" then extract_javascript_imports tree
  else if ext = ".java" then extract_java_imports tree
  else []

/-- Python dict assignment `d[k] = v` on an insertion-ordered dict. -/
def assocSet (l : List (String × FileData)) (k : String) (v : FileData) :
    List (String × FileData) :=
  if l.any (fun x => x.1 = k) then
    l.map (fun x => if x.1 = k then (k, v) else x)
  else l ++ [(k, v)]

/-- The entity-node id `f"{rel_path}::{name}"`. -/
def entityId (relPath nm : String) : String := relPath ++ "::" ++ nm

/-- Add one function or class node and its `defines` edge (the body of the
two entity loops in pass 1 of build_dependency_graph). -/
def addEntity (relPath kindTag : String) (G : Graph) (nm : String) : Graph :=
  (G.add_node (entityId relPath nm)
      { nodeKind := some kindTag, name := some nm, file := some relPath }).add_edge
    relPath (entityId relPath nm) { relationship := some "defines" }

/-- Pass 1 of build_dependency_graph for one walked file: skip unsupported
extensions, third-party files (always), test files (when requested) and
unparsable files; otherwise add the file node, retain the extraction
results, and add the entity nodes and `defines` edges. -/
def processFile (exclude_tests : Bool) (st : Graph × List (String × FileData))
    (f : FileInput) : Graph × List (String × FileData) :=
  if f.ext ∈ SUPPORTED_EXTENSIONS then
    if f.isThirdParty then st
    else if exclude_tests && f.isTest then st
    else
      match f.parsed with
      | none => st
      | some tree =>
        let imports := importsForExt f.ext tree
        let entities := extract_functions_and_classes tree
        let G := st.1.add_node f.relPath
          { nodeKind := some "file", language := some f.ext }
        let fd := assocSet st.2 f.relPath
          { imports := imports, functions := entities.1, classes := entities.2 }
        let G := entities.1.foldl (addEntity f.relPath "function") G
        let G := entities.2.foldl (addEntity f.relPath "class") G
        (G, fd)
  else st

/-- The resolution test of pass 2, applied to one candidate file path:
`module.replace('.', '/') in potential_file or
module.split('.')[-1] in potential_file`. -/
def moduleMatches (module potential_file : String) : Bool :=
  strHas potential_file (dotsToSlashes module) ||
    strHas potential_file ((splitOnDot module).getLastD "")

/-- The external-node id `f"external::{module}"`. -/
def externalId (module : String) : String := "external::" ++ module

/-- Pass 2 of build_dependency_graph for one (file, import) pair: the
first known file path matching `moduleMatches` receives the `imports`
edge (for/break), otherwise an `external` node is created if absent and
receives the edge (for/else). -/
def processImport (keys : List String) (filePath : String) (G : Graph)
    (imp : ImportRec) : Graph :=
  match keys.find? (fun p => moduleMatches imp.module p) with
  | some p =>
    G.add_edge filePath p { relationship := some "imports", module := some imp.module }
  | none =>
    let G1 := if G.hasNode (externalId imp.module) then G
      else G.add_node (externalId imp.module)
        { nodeKind := some "external", module := some imp.module }
    G1.add_edge filePath (externalId imp.module)
      { relationship := some "imports", module := some imp.module }

/-- Pass 2 of build_dependency_graph: resolve every import of every
retained file against the complete key set of file_data. -/
def pass2 (G : Graph) (fd : List (String × FileData)) : Graph :=
  fd.foldl (fun G pd =>
    pd.2.imports.foldl (processImport (fd.map (fun x => x.1)) pd.1) G) G

/-- dependency_analysis.build_dependency_graph: pass 1 over the walked
files, then pass 2, returning the graph and the retained file data. -/
def build_dependency_graph (files : List FileInput) (exclude_tests : Bool) :
    Graph × List (String × FileData) :=
  let st := files.foldl (processFile exclude_tests) (Graph.empty, [])
  (pass2 st.1 st.2, st.2)

/-- Depth-first search of simple cycles through a fixed start node,
visiting only allowed nodes and never revisiting a node on the current
path; fuel bounds the recursion by the node count. -/
def cycleSearch (G : Graph) (allowed : List String) (start : String) :
    Nat → String → List String → List (List String)
  | 0, _, _ => []
  | fuel + 1, u, path =>
    (G.succs u).flatMap (fun v =>
      if v = start then [path.reverse]
      else if v ∈ allowed ∧ v ∉ path then cycleSearch G allowed start fuel v (v :: path)
      else [])

/-- Model of networkx `simple_cycles`: enumerate every elementary cycle
once, represented as the node sequence starting at the cycle member that
comes first in the node list (later members only explore nodes that come
strictly after the start, so each cycle is produced exactly once). -/
def simple_cycles (G : Graph) : List (List String) :=
  let ids := G.nodes.map (fun x => x.1)
  (List.range ids.length).flatMap (fun i =>
    match ids.drop i with
    | [] => []
    | start :: rest => cycleSearch G rest start ids.length start [start])

/-- Stable descending sort by value, modelling Python
`sorted(items, key=lambda x: x[1], reverse=True)`. -/
def sortByValDescending (l : List (String × Nat)) : List (String × Nat) :=
  l.mergeSort (fun a b => b.2 ≤ a.2)

/-- The aggregate metrics record returned by analyze_dependencies. The
float-valued presentation fields (rounded average degree, graph density)
are outside the model. -/
structure DepMetrics where
  total_files : Nat
  total_functions : Nat
  total_classes : Nat
  total_external_dependencies : Nat
  total_edges : Nat
  most_dependent_files : List (String × Nat)
  most_depended_on_files : List (String × Nat)
  circular_dependencies : Nat
  circular_dependency_chains : List (List String)
deriving DecidableEq

/-- The graph analyze_dependencies computes metrics over: the built graph,
with every `external`-typed node (and its incident edges) removed when
`exclude_third_party` is set. -/
def analysisGraph (files : List FileInput) (exclude_third_party exclude_tests : Bool) :
    Graph :=
  let G := (build_dependency_graph files exclude_tests).1
  let externalNodes := (G.nodes.filter (fun x => x.2.nodeKind = some "external")).map
    (fun x => x.1)
  if exclude_third_party then G.remove_nodes_from externalNodes else G

/-- dependency_analysis.analyze_dependencies: build the graph, optionally
drop external nodes, then compute counts, top-5 degree lists, and the
file-only simple cycles capped at the first 10. -/
def analyze_dependencies (files : List FileInput)
    (exclude_third_party exclude_tests : Bool) : DepMetrics :=
  let G0 := (build_dependency_graph files exclude_tests).1
  let externalNodes := (G0.nodes.filter (fun x => x.2.nodeKind = some "external")).map
    (fun x => x.1)
  let G := if exclude_third_party then G0.remove_nodes_from externalNodes else G0
  let total_external := if exclude_third_party then 0 else externalNodes.length
  let file_nodes := (G.nodes.filter (fun x => x.2.nodeKind = some "file")).map
    (fun x => x.1)
  let cycles := simple_cycles G
  let file_cycles := cycles.filter (fun cyc =>
    cyc.all (fun v => G.nodeTypeOf v = some "file"))
  { total_files := file_nodes.length
    total_functions := (G.nodes.filter (fun x => x.2.nodeKind = some "function")).length
    total_classes := (G.nodes.filter (fun x => x.2.nodeKind = some "class")).length
    total_external_dependencies := total_external
    total_edges := G.edges.length
    most_dependent_files :=
      (sortByValDescending (file_nodes.map (fun n => (n, G.outDegree n)))).take 5
    most_depended_on_files :=
      (sortByValDescending (file_nodes.map (fun n => (n, G.inDegree n)))).take 5
    circular_dependencies := file_cycles.length
    circular_dependency_chains := file_cycles.take 10 }

/-- One entry of the complex-function list kept for the LLM stage. -/
structure ComplexFn where
  file_path : String
  function_name : String
  content : String
  complexity : Nat
deriving DecidableEq

/-- The accumulating results dict of analyze_functions. `min_complexity`
is `none` while it still holds the initial `float('inf')`; the nested
complexity_distribution dict is flattened into the four bucket fields. -/
structure AnalysisResults where
  complexities : List Nat
  total_functions : Nat
  max_complexity : Nat
  min_complexity : Option Nat
  files_analyzed : Nat
  dist_low : Nat
  dist_medium : Nat
  dist_high : Nat
  dist_very_high : Nat
  complex_functions : List ComplexFn
deriving DecidableEq

/-- The initial results dict of analyze_functions. -/
def initResults : AnalysisResults :=
  { complexities := [], total_functions := 0, max_complexity := 0
    min_complexity := none, files_analyzed := 0
    dist_low := 0, dist_medium := 0, dist_high := 0, dist_very_high := 0
    complex_functions := [] }

/-- Python `func_name or "unknown"` (None and the empty string are falsy). -/
def nameOrUnknown (o : Option String) : String :=
  match o with
  | some s => if s ≠ "" then s else "unknown"
  | none => "unknown"

/-- analyze_functions' find_functions: every node of the subtree whose
type is function-like, in pre-order. -/
def find_functions (tree : CSTNode) : List CSTNode :=
  tree.subtree.filter (fun n => n.kind ∈ FUNCTION_NODE_TYPES)

/-- Body of the per-function loop of analyze_functions: count the
function, record its complexity, update max/min, store a complex-function
record above the medium threshold, and bump the matching bucket. -/
def processFunctionNode (rel_path : String) (res : AnalysisResults)
    (node : CSTNode) : AnalysisResults :=
  let func_name := firstIdentLikeChild node
  let complexity := calculate_cyclomatic_complexity node
  let res := { res with
    total_functions := res.total_functions + 1
    complexities := res.complexities ++ [complexity]
    max_complexity := max res.max_complexity complexity
    min_complexity :=
      if 0 < complexity then
        match res.min_complexity with
        | none => some complexity
        | some m => some (min m complexity)
      else res.min_complexity }
  let res :=
    if COMPLEXITY_THRESHOLDS.medium.2 < complexity then
      { res with complex_functions := res.complex_functions ++
          [{ file_path := rel_path, function_name := nameOrUnknown func_name
             content := node.text, complexity := complexity }] }
    else res
  if complexity ≤ COMPLEXITY_THRESHOLDS.low.2 then
    { res with dist_low := res.dist_low + 1 }
  else if complexity ≤ COMPLEXITY_THRESHOLDS.medium.2 then
    { res with dist_medium := res.dist_medium + 1 }
  else if complexity ≤ COMPLEXITY_THRESHOLDS.high.2 then
    { res with dist_high := res.dist_high + 1 }
  else
    { res with dist_very_high := res.dist_very_high + 1 }

/-- Per-file step of analyze_functions: skip unsupported extensions,
third-party files (when requested), test files (when requested) and
unparsable files; otherwise count the file and fold over its
function-like nodes. -/
def processFileFunctions (exclude_third_party exclude_tests : Bool)
    (res : AnalysisResults) (f : FileInput) : AnalysisResults :=
  if f.ext ∈ SUPPORTED_EXTENSIONS then
    if exclude_third_party && f.isThirdParty then res
    else if exclude_tests && f.isTest then res
    else
      match f.parsed with
      | none => res
      | some tree =>
        let res := { res with files_analyzed := res.files_analyzed + 1 }
        (find_functions tree).foldl (processFunctionNode f.relPath) res
  else res

/-- analysis.analyze_functions: fold over the walked files, then replace
a still-infinite minimum by 0. -/
def analyze_functions (files : List FileInput)
    (exclude_third_party exclude_tests : Bool) : AnalysisResults :=
  let res := files.foldl (processFileFunctions exclude_third_party exclude_tests)
    initResults
  { res with min_complexity := some (res.min_complexity.getD 0) }

/-- The `defines` edge attribute record created in pass 1. -/
def definesAttrs : EdgeAttrs := { relationship := some "defines" }

/-- Side conditions on the processed file-path list: paths are colon-free,
none is literally "external", and they are pairwise distinct. These hold
for any real repository walk. -/
structure DoneOk (done : List String) : Prop where
  cf : ∀ p ∈ done, colonFree p = true
  nex : ∀ p ∈ done, p ≠ "external"
  nd : done.Nodup

/-- Structural invariant of the dependency graph relative to the list of
file paths retained so far: node ids are unique, edge (source, target)
pairs are unique, edge endpoints are nodes, every retained path has a
`file` node, every node is a retained file, an entity of a retained file,
or an external placeholder, every edge leaves a retained file and is
either the `defines` edge of one of its entities or an `imports` edge to
a file or external node, and every `function`/`class` node has exactly
its own `defines` edge as incoming edge. -/
structure GInv (done : List String) (G : Graph) : Prop where
  nodupN : (G.nodes.map (fun x => x.1)).Nodup
  nodupE : (G.edges.map (fun e => (e.1, e.2.1))).Nodup
  endpointsL : ∀ e ∈ G.edges, G.hasNode e.1 = true
  endpointsR : ∀ e ∈ G.edges, G.hasNode e.2.1 = true
  fileNodes : ∀ p ∈ done, ∃ a, (p, a) ∈ G.nodes ∧ a.nodeKind = some "file"
  nodeShape : ∀ x ∈ G.nodes,
      (x.2.nodeKind = some "file" ∧ x.1 ∈ done) ∨
      ((x.2.nodeKind = some "function" ∨ x.2.nodeKind = some "class") ∧
        ∃ p n, x.1 = entityId p n ∧ p ∈ done ∧ x.2.file = some p) ∨
      (x.2.nodeKind = some "external" ∧ ∃ m, x.1 = externalId m)
  edgeShape : ∀ e ∈ G.edges, e.1 ∈ done ∧
      ((∃ n, e.2.1 = entityId e.1 n ∧ e.2.2 = definesAttrs) ∨
       (e.2.1 ∈ done ∧ e.2.2.relationship = some "imports") ∨
       ((∃ m, e.2.1 = externalId m) ∧ e.2.2.relationship = some "imports"))
  entityIn : ∀ x ∈ G.nodes,
      (x.2.nodeKind = some "function" ∨ x.2.nodeKind = some "class") →
      ∃ p n, x.1 = entityId p n ∧ x.2.file = some p ∧ p ∈ done ∧
        G.edges.filter (fun e => e.2.1 = x.1) = [(p, x.1, definesAttrs)]

/-- Decision-point predicate exactly as the claim words it: a node counts
when its type is in the decision set, except that the two ambiguous types
count only when their literal source text contains a logical and/or token. -/
def isCountedDecisionPoint (d : CSTNode) : Bool :=
  decide (d.kind ∈ DECISION_NODE_TYPES) &&
    (!(d.kind = "boolean_operator" || d.kind = "binary_expression") ||
      LOGICAL_OPERATOR_TOKENS.any (fun op => strHas d.text op))

/-- Number of counted decision-point descendants of a node (strict
descendants: the node itself is excluded, as the claim counts descendants). -/
def claimedDecisionCount (n : CSTNode) : Nat :=
  (CSTNode.subtreeList n.children).countP isCountedDecisionPoint

/-- Scenario A of the spec: one if, one elif clause and one for loop. -/
def sampleFunctionNode : CSTNode :=
  .mk "function_definition" "def f(): ..."
    [.mk "identifier" "f" [],
     .mk "parameters" "()" [],
     .mk "block" "..."
       [.mk "if_statement" "if a: ... elif b: ..."
          [.mk "elif_clause" "elif b: ..." []],
        .mk "for_statement" "for i in r: ..." []]]

/-- The tree-sitter-python CST of `from X import a, b`: the module name and
every imported name are `dotted_name` children of the statement node. -/
def cstFromImportXab : CSTNode :=
  .mk "import_from_statement" "from X import a, b"
    [.mk "from" "from" [],
     .mk "dotted_name" "X" [.mk "identifier" "X" []],
     .mk "import" "import" [],
     .mk "dotted_name" "a" [.mk "identifier" "a" []],
     .mk "," "," [],
     .mk "dotted_name" "b" [.mk "identifier" "b" []]]

/-- A module whose only statement is `from X import a, b`. -/
def cstModuleXab : CSTNode :=
  .mk "module" "from X import a, b" [cstFromImportXab]

/-- The tree-sitter-python CST of `from .b import x`: the relative module
reference is a `relative_import` node holding the `import_prefix` and the
`dotted_name`, and the imported name is a `dotted_name` child. -/
def cstFromDotB : CSTNode :=
  .mk "import_from_statement" "from .b import x"
    [.mk "from" "from" [],
     .mk "relative_import" ".b"
       [.mk "import_prefix" "." [],
        .mk "dotted_name" "b" [.mk "identifier" "b" []]],
     .mk "import" "import" [],
     .mk "dotted_name" "x" [.mk "identifier" "x" []]]

/-- A module whose only statement is `from .b import x`. -/
def cstModuleDotB : CSTNode :=
  .mk "module" "from .b import x" [cstFromDotB]

/-- File pkg/a.py containing `from .b import x`. -/
def pkgAFile : FileInput :=
  { relPath := "pkg/a.py", ext := ".py", isThirdParty := false, isTest := false,
    parsed := some cstModuleDotB }

/-- File pkg/b.py, an empty module. -/
def pkgBFile : FileInput :=
  { relPath := "pkg/b.py", ext := ".py", isThirdParty := false, isTest := false,
    parsed := some (.mk "module" "" []) }

/-- A function definition with no identifier-like child (an anonymous
definition). -/
def cstNamelessFn : CSTNode :=
  .mk "function_definition" "def (): pass" [.mk "parameters" "()" []]

/-- A module holding only the nameless function definition. -/
def cstNamelessModule : CSTNode :=
  .mk "module" "def (): pass" [cstNamelessFn]

/-- The nameless module as a walked file. -/
def namelessFile : FileInput :=
  { relPath := "f.py", ext := ".py", isThirdParty := false, isTest := false,
    parsed := some cstNamelessModule }

/-- A nameless function complex enough to cross the medium threshold. -/
def cstBigNamelessFn : CSTNode :=
  .mk "function_definition" "def (): big"
    [.mk "parameters" "()" [],
     .mk "block" "b" (List.replicate 11 (.mk "if_statement" "if c: d" []))]

/-- A class definition with no identifier child. -/
def cstNamelessClass : CSTNode :=
  .mk "class_definition" "class : pass" [.mk "block" "pass" []]

/-- A syntactically fine companion file used by the C8 witness. -/
def okFile : FileInput :=
  { relPath := "ok.py", ext := ".py", isThirdParty := false, isTest := false,
    parsed := some (.mk "module" "import b"
      [.mk "import_statement" "import b"
        [.mk "import" "import" [], .mk "dotted_name" "b" [.mk "identifier" "b" []]]]) }

/-- A file whose parse raised. -/
def badFile : FileInput :=
  { relPath := "bad.py", ext := ".py", isThirdParty := false, isTest := false,
    parsed := none }

/-- A file defining one function, used by witnesses. -/
def definingFile : FileInput :=
  { relPath := "m.py", ext := ".py", isThirdParty := false, isTest := false,
    parsed := some (.mk "module" "def g(): pass"
      [.mk "function_definition" "def g(): pass"
        [.mk "identifier" "g" [], .mk "parameters" "()" []]]) }

/-- File a.py importing b. -/
def cycleFileA : FileInput :=
  { relPath := "a.py", ext := ".py", isThirdParty := false, isTest := false,
    parsed := some (.mk "module" "import b"
      [.mk "import_statement" "import b"
        [.mk "import" "import" [], .mk "dotted_name" "b" [.mk "identifier" "b" []]]]) }

/-- File b.py importing a. -/
def cycleFileB : FileInput :=
  { relPath := "b.py", ext := ".py", isThirdParty := false, isTest := false,
    parsed := some (.mk "module" "import a"
      [.mk "import_statement" "import a"
        [.mk "import" "import" [], .mk "dotted_name" "a" [.mk "identifier" "a" []]]]) }

/-- File a.py with its import removed. -/
def cycleFileANoImport : FileInput :=
  { relPath := "a.py", ext := ".py", isThirdParty := false, isTest := false,
    parsed := some (.mk "module" "" []) }

/-- File b.py with its import removed. -/
def cycleFileBNoImport : FileInput :=
  { relPath := "b.py", ext := ".py", isThirdParty := false, isTest := false,
    parsed := some (.mk "module" "" []) }

/-- The per-file inclusion test of analyze_functions (supported extension,
third-party and test exclusion toggles, successful parse), folded into one
predicate for the characterization below. -/
def includedForAnalysis (exT exTests : Bool) (f : FileInput) : Bool :=
  decide (f.ext ∈ SUPPORTED_EXTENSIONS) && !(exT && f.isThirdParty) &&
    !(exTests && f.isTest) && f.parsed.isSome

/-- The complex-function record the claim describes: file path, function
name (sentinel "unknown" when unresolved), full source text, complexity. -/
def complexRecordOf (rel : String) (n : CSTNode) : ComplexFn :=
  { file_path := rel, function_name := nameOrUnknown (firstIdentLikeChild n),
    content := n.text, complexity := calculate_cyclomatic_complexity n }

/-- The (file path, function node) pairs analyze_functions visits, in
visit order. -/
def analyzedFunctionEntries (exT exTests : Bool) (files : List FileInput) :
    List (String × CSTNode) :=
  (files.filter (includedForAnalysis exT exTests)).flatMap (fun f =>
    match f.parsed with
    | some tree => (find_functions tree).map (fun n => (f.relPath, n))
    | none => [])

/-- The record kept for an entry above the medium threshold, none below. -/
def complexEntryRecord (e : String × CSTNode) : Option ComplexFn :=
  if 10 < calculate_cyclomatic_complexity e.2 then some (complexRecordOf e.1 e.2)
  else none

/-- The per-(file, import) outcome of the actual pass-2 resolution: when
the first known path matching the substring rule exists, the graph holds
an imports edge from the file to it; when none matches, the graph holds
an external-typed node for the module and an imports edge from the file
to it. -/
def resolutionProp (keys : List String) (G : Graph) (fp : String)
    (imp : ImportRec) : Prop :=
  (∀ q, keys.find? (fun p => moduleMatches imp.module p) = some q →
    ∃ a, (fp, q, a) ∈ G.edges ∧ a.relationship = some "imports") ∧
  (keys.find? (fun p => moduleMatches imp.module p) = none →
    (∃ na, (externalId imp.module, na) ∈ G.nodes ∧ na.nodeKind = some "external") ∧
    ∃ a, (fp, externalId imp.module, a) ∈ G.edges ∧ a.relationship = some "imports")

def impAttrs (m : String) : EdgeAttrs :=
  { relationship := some "imports", module := some m }

def filterExt (m : String) (G : Graph) : List GEdge :=
  G.edges.filter (fun e => e.2.1 = externalId m)

def importersOf (fd : List (String × FileData)) (m : String) : List String :=
  (fd.filter (fun pd => pd.2.imports.any (fun i => i.module = m))).map (fun x => x.1)

def importNumpyStmt : CSTNode :=
  .mk "import_statement" "import numpy"
    [.mk "import" "import" [], .mk "dotted_name" "numpy" [.mk "identifier" "numpy" []]]

def numpyFile (nm : String) : FileInput :=
  { relPath := nm, ext := ".py", isThirdParty := false, isTest := false,
    parsed := some (.mk "module" "import numpy" [importNumpyStmt]) }

def tenFiles : List FileInput :=
  ["f0.py", "f1.py", "f2.py", "f3.py", "f4.py", "f5.py", "f6.py", "f7.py",
   "f8.py", "f9.py"].map numpyFile

def thirdPartyFile : FileInput :=
  { relPath := "vendor/lib.py", ext := ".py", isThirdParty := true, isTest := false,
    parsed := some (.mk "module" "" []) }

theorem CSTNode.subtreeList_eq_flatMap (cs : List CSTNode) :
    CSTNode.subtreeList cs = cs.flatMap CSTNode.subtree := by
  induction cs with
  | nil => rfl
  | cons c cs ih => simp [CSTNode.subtreeList, ih]

theorem CSTNode.subtree_mk (k t : String) (cs : List CSTNode) :
    (CSTNode.mk k t cs).subtree = .mk k t cs :: cs.flatMap CSTNode.subtree := by
  rw [CSTNode.subtree, CSTNode.subtreeList_eq_flatMap]

theorem colonFree_iff (s : String) :
    colonFree s = true ↔ ∀ c ∈ s.data, c ≠ ':' := by
  simp [colonFree, String.toList, List.all_eq_true]

theorem charsSplitColon (a : List Char) :
    ∀ (b x y : List Char), (∀ c ∈ a, c ≠ ':') → (∀ c ∈ b, c ≠ ':') →
    a ++ ':' :: ':' :: x = b ++ ':' :: ':' :: y → a = b ∧ x = y := by
  induction a with
  | nil =>
    intro b x y _ hb h
    cases b with
    | nil => simpa using h
    | cons d ds =>
      exfalso
      simp only [List.nil_append, List.cons_append, List.cons.injEq] at h
      exact hb d (by simp) h.1.symm
  | cons c cs ih =>
    intro b x y ha hb h
    cases b with
    | nil =>
      exfalso
      simp only [List.nil_append, List.cons_append, List.cons.injEq] at h
      exact ha c (by simp) h.1
    | cons d ds =>
      simp only [List.cons_append, List.cons.injEq] at h
      obtain ⟨hcd, h2⟩ := h
      obtain ⟨h3, h4⟩ := ih ds x y (fun e he => ha e (by simp [he]))
        (fun e he => hb e (by simp [he])) h2
      exact ⟨by rw [hcd, h3], h4⟩

theorem entityId_data (p n : String) :
    (entityId p n).data = p.data ++ ':' :: ':' :: n.data := by
  have h1 : (entityId p n).data = p.data ++ ("::".data ++ n.data) := by
    simp [entityId, String.data_append]
  rw [h1]
  rfl

theorem externalId_data (m : String) :
    (externalId m).data = "external".data ++ ':' :: ':' :: m.data := by
  have h1 : (externalId m).data = "external::".data ++ m.data := by
    simp [externalId, String.data_append]
  rw [h1]
  rfl

theorem entityId_inj (p q n m : String) (hp : colonFree p = true)
    (hq : colonFree q = true) (h : entityId p n = entityId q m) :
    p = q ∧ n = m := by
  have hd := congrArg String.data h
  rw [entityId_data, entityId_data] at hd
  obtain ⟨h1, h2⟩ := charsSplitColon p.data q.data n.data m.data
    ((colonFree_iff p).1 hp) ((colonFree_iff q).1 hq) hd
  exact ⟨String.ext h1, String.ext h2⟩

theorem externalId_inj (m m' : String) (h : externalId m = externalId m') : m = m' := by
  have hd := congrArg String.data h
  rw [externalId_data, externalId_data] at hd
  have : ∀ c ∈ "external".data, c ≠ ':' := by decide
  obtain ⟨_, h2⟩ := charsSplitColon "external".data "external".data m.data m'.data
    this this hd
  exact String.ext h2

theorem entityId_not_colonFree (p n : String) : colonFree (entityId p n) = false := by
  by_contra h
  have h' : colonFree (entityId p n) = true := by
    cases hc : colonFree (entityId p n) with
    | false => exact absurd hc h
    | true => rfl
  have := (colonFree_iff _).1 h' ':' (by rw [entityId_data]; simp)
  exact this rfl

theorem entityId_ne_colonFree (p n q : String) (hq : colonFree q = true) :
    entityId p n ≠ q := by
  intro h
  have hf := entityId_not_colonFree p n
  rw [h] at hf
  rw [hf] at hq
  exact Bool.false_ne_true hq

theorem entityId_eq_externalId (p n m : String) (hp : colonFree p = true)
    (h : entityId p n = externalId m) : p = "external" := by
  have hd := congrArg String.data h
  rw [entityId_data, externalId_data] at hd
  have hext : ∀ c ∈ "external".data, c ≠ ':' := by decide
  obtain ⟨h1, _⟩ := charsSplitColon p.data "external".data n.data m.data
    ((colonFree_iff p).1 hp) hext hd
  exact String.ext h1

theorem externalId_ne_colonFree (m q : String) (hq : colonFree q = true) :
    externalId m ≠ q := by
  intro h
  have : (':' ∈ q.data) := by
    rw [show q = externalId m from h.symm, externalId_data]; simp
  exact ((colonFree_iff q).1 hq ':' this) rfl

theorem hasNode_iff (G : Graph) (id : String) :
    G.hasNode id = true ↔ id ∈ G.nodes.map (fun x => x.1) := by
  simp [Graph.hasNode, List.any_eq_true]

theorem hasEdge_iff (G : Graph) (u v : String) :
    G.hasEdge u v = true ↔ ∃ a, (u, v, a) ∈ G.edges := by
  simp only [Graph.hasEdge, List.any_eq_true, Bool.and_eq_true, decide_eq_true_eq]
  constructor
  · rintro ⟨⟨s, t, a⟩, hm, hs, ht⟩
    exact ⟨a, by simp only at hs ht; rw [← hs, ← ht]; exact hm⟩
  · rintro ⟨a, hm⟩
    exact ⟨(u, v, a), hm, rfl, rfl⟩

theorem mem_fst_unique {α β : Type} {l : List (α × β)}
    (hnd : (l.map (fun x => x.1)).Nodup) {x y : α × β} (hx : x ∈ l) (hy : y ∈ l)
    (h : x.1 = y.1) : x = y := by
  induction l with
  | nil => cases hx
  | cons z zs ih =>
    simp only [List.map_cons, List.nodup_cons] at hnd
    rcases List.mem_cons.1 hx with hx1 | hx1 <;>
      rcases List.mem_cons.1 hy with hy1 | hy1
    · rw [hx1, hy1]
    · exfalso; rw [hx1] at h; exact hnd.1 (by rw [h]; exact List.mem_map_of_mem _ hy1)
    · exfalso; rw [hy1] at h; exact hnd.1 (by rw [← h]; exact List.mem_map_of_mem _ hx1)
    · exact ih hnd.2 hx1 hy1

theorem find?_of_mem_nodup {l : List (String × NodeAttrs)} {p : String}
    {a : NodeAttrs} (hnd : (l.map (fun x => x.1)).Nodup) (hm : (p, a) ∈ l) :
    l.find? (fun x => x.1 = p) = some (p, a) := by
  induction l with
  | nil => cases hm
  | cons z zs ih =>
    simp only [List.map_cons, List.nodup_cons] at hnd
    rcases List.mem_cons.1 hm with h1 | h1
    · rw [← h1]
      simp [List.find?]
    · have hz : z.1 ≠ p := by
        intro he
        exact hnd.1 (by rw [he]; exact List.mem_map_of_mem _ h1)
      rw [List.find?_cons_of_neg _ (by simpa using hz)]
      exact ih hnd.2 h1

theorem ensureNode_eq_self (G : Graph) (id : String) (h : G.hasNode id = true) :
    G.ensureNode id = G := by
  simp [Graph.ensureNode, h]

theorem add_edge_eq_of_hasNodes (G : Graph) (u v : String) (a : EdgeAttrs)
    (hu : G.hasNode u = true) (hv : G.hasNode v = true) :
    G.add_edge u v a =
      if G.hasEdge u v = true then
        { G with edges := G.edges.map (fun e =>
            if e.1 = u && e.2.1 = v then (e.1, e.2.1, e.2.2.updateWith a) else e) }
      else { G with edges := G.edges ++ [(u, v, a)] } := by
  rw [Graph.add_edge]
  rw [ensureNode_eq_self G u hu, ensureNode_eq_self G v hv]

theorem add_node_edges (G : Graph) (id : String) (a : NodeAttrs) :
    (G.add_node id a).edges = G.edges := by
  rw [Graph.add_node]
  split <;> rfl

theorem map_fst_update {α β : Type} (l : List (α × β)) (id : α) (f : β → β)
    [DecidableEq α] :
    (l.map (fun x => if x.1 = id then (x.1, f x.2) else x)).map (fun x => x.1) =
      l.map (fun x => x.1) := by
  induction l with
  | nil => rfl
  | cons z zs ih =>
    simp only [List.map_cons, List.cons.injEq]
    exact ⟨by split <;> rfl, ih⟩

theorem add_node_map_fst (G : Graph) (id : String) (a : NodeAttrs) :
    (G.add_node id a).nodes.map (fun x => x.1) =
      if G.hasNode id = true then G.nodes.map (fun x => x.1)
      else G.nodes.map (fun x => x.1) ++ [id] := by
  by_cases h : G.hasNode id = true
  · simp only [Graph.add_node, h, if_true]
    exact map_fst_update G.nodes id (fun b => b.updateWith a)
  · simp only [Graph.add_node, h, if_false]
    simp

theorem add_node_nodup (G : Graph) (id : String) (a : NodeAttrs)
    (hnd : (G.nodes.map (fun x => x.1)).Nodup) :
    ((G.add_node id a).nodes.map (fun x => x.1)).Nodup := by
  rw [add_node_map_fst]
  by_cases h : G.hasNode id = true
  · rw [if_pos h]; exact hnd
  · rw [if_neg h]
    rw [List.nodup_append]
    refine ⟨hnd, List.nodup_singleton _, ?_⟩
    intro x hx
    simp only [List.mem_singleton]
    intro he
    rw [he] at hx
    exact absurd ((hasNode_iff G id).2 hx) (by simp [h])

theorem mem_add_node (G : Graph) (id : String) (a : NodeAttrs)
    {x : String × NodeAttrs} (hx : x ∈ (G.add_node id a).nodes) :
    (∃ y ∈ G.nodes, y.1 ≠ id ∧ x = y) ∨
    (∃ y ∈ G.nodes, y.1 = id ∧ x = (y.1, y.2.updateWith a)) ∨
    (G.hasNode id = false ∧ x = (id, a)) := by
  rw [Graph.add_node] at hx
  by_cases h : G.hasNode id = true
  · simp only [h, if_true] at hx
    obtain ⟨y, hy, hxy⟩ := List.mem_map.1 hx
    by_cases hyid : y.1 = id
    · right; left
      exact ⟨y, hy, hyid, by rw [← hxy]; simp [hyid]⟩
    · left
      exact ⟨y, hy, hyid, by rw [← hxy]; simp [hyid]⟩
  · simp only [h, if_false] at hx
    rcases List.mem_append.1 hx with h1 | h1
    · by_cases hyid : x.1 = id
      · right; left
        exfalso
        exact absurd ((hasNode_iff G id).2 (hyid ▸ List.mem_map_of_mem _ h1))
          (by simpa using h)
      · left; exact ⟨x, h1, hyid, rfl⟩
    · right; right
      exact ⟨by simpa using h, by simpa using h1⟩

theorem add_node_mem_of_ne (G : Graph) (id : String) (a : NodeAttrs)
    {x : String × NodeAttrs} (hx : x ∈ G.nodes) (hne : x.1 ≠ id) :
    x ∈ (G.add_node id a).nodes := by
  rw [Graph.add_node]
  split
  · exact List.mem_map.2 ⟨x, hx, by simp [hne]⟩
  · exact List.mem_append_left _ hx

theorem add_node_self_mem (G : Graph) (id : String) (a : NodeAttrs)
    (h : G.hasNode id = false) : (id, a) ∈ (G.add_node id a).nodes := by
  rw [Graph.add_node, h]
  simp

theorem hasEdge_false_iff (G : Graph) (u v : String) :
    G.hasEdge u v = false ↔ ∀ e ∈ G.edges, ¬(e.1 = u ∧ e.2.1 = v) := by
  constructor
  · intro h e he hc
    have : G.hasEdge u v = true := by
      simp only [Graph.hasEdge, List.any_eq_true]
      exact ⟨e, he, by simp [hc.1, hc.2]⟩
    rw [h] at this
    exact Bool.false_ne_true this
  · intro h
    cases hc : G.hasEdge u v with
    | false => rfl
    | true =>
      exfalso
      simp only [Graph.hasEdge, List.any_eq_true, Bool.and_eq_true,
        decide_eq_true_eq] at hc
      obtain ⟨e, he, h1, h2⟩ := hc
      exact h e he ⟨h1, h2⟩

theorem map_update_edge_pairs (l : List GEdge) (u v : String) (a : EdgeAttrs) :
    (l.map (fun e => if e.1 = u && e.2.1 = v then (e.1, e.2.1, e.2.2.updateWith a)
      else e)).map (fun e => (e.1, e.2.1)) = l.map (fun e => (e.1, e.2.1)) := by
  induction l with
  | nil => rfl
  | cons e es ih =>
    simp only [List.map_cons, List.cons.injEq]
    exact ⟨by split <;> rfl, ih⟩

theorem mem_add_edge (G : Graph) (u v : String) (a : EdgeAttrs)
    {e : GEdge} (he : e ∈ (G.add_edge u v a).edges) :
    (∃ f ∈ G.edges, ¬(f.1 = u ∧ f.2.1 = v) ∧ e = f) ∨
    (∃ f ∈ G.edges, f.1 = u ∧ f.2.1 = v ∧ e = (f.1, f.2.1, f.2.2.updateWith a)) ∨
    (e = (u, v, a)) := by
  rw [Graph.add_edge] at he
  have hEe : ((G.ensureNode u).ensureNode v).edges = G.edges := by
    rw [Graph.ensureNode, Graph.ensureNode]
    split <;> split <;> rfl
  by_cases h : ((G.ensureNode u).ensureNode v).hasEdge u v = true
  · simp only [h, if_true] at he
    rw [hEe] at he
    obtain ⟨f, hf, hef⟩ := List.mem_map.1 he
    by_cases hc : f.1 = u && f.2.1 = v
    · right; left
      simp only [Bool.and_eq_true, decide_eq_true_eq] at hc
      exact ⟨f, hf, hc.1, hc.2, by rw [← hef]; simp [hc.1, hc.2]⟩
    · left
      refine ⟨f, hf, ?_, by rw [← hef]; simp [hc]⟩
      intro hcc
      exact hc (by simp [hcc.1, hcc.2])
  · simp only [h, if_false] at he
    rw [hEe] at he
    have hEq : ((G.ensureNode u).ensureNode v).hasEdge u v = G.hasEdge u v := by
      rw [Graph.hasEdge, Graph.hasEdge, hEe]
    have hfalse : G.hasEdge u v = false := by
      cases hh : G.hasEdge u v with
      | false => rfl
      | true => exact absurd (by rw [hEq]; exact hh) h
    rcases List.mem_append.1 he with h1 | h1
    · by_cases hc : e.1 = u ∧ e.2.1 = v
      · exact absurd hc ((hasEdge_false_iff G u v).1 hfalse e h1)
      · left; exact ⟨e, h1, hc, rfl⟩
    · right; right; simpa using h1

theorem add_edge_nodes_of_hasNodes (G : Graph) (u v : String) (a : EdgeAttrs)
    (hu : G.hasNode u = true) (hv : G.hasNode v = true) :
    (G.add_edge u v a).nodes = G.nodes := by
  rw [add_edge_eq_of_hasNodes G u v a hu hv]
  split <;> rfl

theorem add_edge_edges_of_not_hasEdge (G : Graph) (u v : String) (a : EdgeAttrs)
    (hu : G.hasNode u = true) (hv : G.hasNode v = true)
    (h : G.hasEdge u v = false) :
    (G.add_edge u v a).edges = G.edges ++ [(u, v, a)] := by
  rw [add_edge_eq_of_hasNodes G u v a hu hv]
  simp [h]

theorem add_edge_edges_of_hasEdge (G : Graph) (u v : String) (a : EdgeAttrs)
    (hu : G.hasNode u = true) (hv : G.hasNode v = true)
    (h : G.hasEdge u v = true) :
    (G.add_edge u v a).edges = G.edges.map (fun e =>
      if e.1 = u && e.2.1 = v then (e.1, e.2.1, e.2.2.updateWith a) else e) := by
  rw [add_edge_eq_of_hasNodes G u v a hu hv]
  simp [h]

theorem update_edge_preserves_key (u v : String) (a : EdgeAttrs) (e : GEdge) :
    ((if e.1 = u && e.2.1 = v then (e.1, e.2.1, e.2.2.updateWith a) else e)).1 = e.1 ∧
    ((if e.1 = u && e.2.1 = v then (e.1, e.2.1, e.2.2.updateWith a) else e)).2.1 = e.2.1 := by
  split <;> exact ⟨rfl, rfl⟩

theorem filter_target_map_update (l : List GEdge) (u v t : String) (a : EdgeAttrs)
    (hvt : v ≠ t) :
    (l.map (fun e => if e.1 = u && e.2.1 = v then (e.1, e.2.1, e.2.2.updateWith a)
      else e)).filter (fun e => e.2.1 = t) = l.filter (fun e => e.2.1 = t) := by
  rw [List.filter_map]
  rw [List.filter_congr (q := fun e => decide (e.2.1 = t)) (fun e _ => by
    simp only [Function.comp]
    rw [(update_edge_preserves_key u v a e).2])]
  rw [List.map_congr_left (g := fun e => e) (fun e hee => by
    have het : e.2.1 = t := by
      have := List.mem_filter.1 hee
      simpa using this.2
    have hc : (e.1 = u && e.2.1 = v) = false := by
      have : e.2.1 ≠ v := by rw [het]; exact fun hh => hvt hh.symm
      simp [this]
    simp [hc])]
  simp

theorem definesAttrs_update_self : definesAttrs.updateWith definesAttrs = definesAttrs := rfl

theorem hasNode_of_mem (G : Graph) {x : String × NodeAttrs} (hx : x ∈ G.nodes) :
    G.hasNode x.1 = true :=
  (hasNode_iff G x.1).2 (List.mem_map_of_mem _ hx)

theorem add_node_hasNode_mono (G : Graph) (id : String) (a : NodeAttrs)
    {x : String} (h : G.hasNode x = true) : (G.add_node id a).hasNode x = true := by
  rw [hasNode_iff] at h ⊢
  rw [add_node_map_fst]
  split
  · exact h
  · exact List.mem_append_left _ h

theorem assocSet_of_not_mem (l : List (String × FileData)) (k : String) (v : FileData)
    (h : (l.any (fun x => x.1 = k)) = false) : assocSet l k v = l ++ [(k, v)] := by
  rw [assocSet, h]
  simp

theorem filter_target_nil_of_not_hasNode {G : Graph} {id : String}
    (hR : ∀ e ∈ G.edges, G.hasNode e.2.1 = true) (h : G.hasNode id = false) :
    G.edges.filter (fun e => e.2.1 = id) = [] := by
  rw [List.filter_eq_nil_iff]
  intro e he
  simp only [decide_eq_true_eq]
  intro hc
  have := hR e he
  rw [hc, h] at this
  exact Bool.false_ne_true this

theorem GInv.empty : GInv [] Graph.empty := by
  refine ⟨?_, ?_, ?_, ?_, ?_, ?_, ?_, ?_⟩ <;> simp [Graph.empty]

theorem add_node_nodes_of_not (G : Graph) (id : String) (a : NodeAttrs)
    (h : G.hasNode id = false) : (G.add_node id a).nodes = G.nodes ++ [(id, a)] := by
  rw [Graph.add_node, h]
  simp

theorem hasNode_eq_of_map_fst {G' G : Graph}
    (h : G'.nodes.map (fun x => x.1) = G.nodes.map (fun x => x.1)) (z : String) :
    G'.hasNode z = G.hasNode z := by
  cases hz : G.hasNode z with
  | true => exact (hasNode_iff G' z).2 (by rw [h]; exact (hasNode_iff G z).1 hz)
  | false =>
    cases hz' : G'.hasNode z with
    | false => rfl
    | true =>
      exfalso
      have hmem := (hasNode_iff G' z).1 hz'
      rw [h] at hmem
      have h2 := (hasNode_iff G z).2 hmem
      rw [hz] at h2
      exact Bool.false_ne_true h2

theorem addEntity_inv {done : List String} {G : Graph} (hdo : DoneOk done)
    (inv : GInv done G) (p tag nm : String) (hp : p ∈ done)
    (htag : tag = "function" ∨ tag = "class") :
    GInv done (addEntity p tag G nm) := by
  have hcfp : colonFree p = true := hdo.cf p hp
  rw [addEntity]
  set id := entityId p nm with hid_def
  set attrs : NodeAttrs :=
    { nodeKind := some tag, name := some nm, file := some p } with hattrs_def
  set G1 := G.add_node id attrs with hG1_def
  show GInv done (G1.add_edge p id definesAttrs)
  have hG1edges : G1.edges = G.edges := add_node_edges G id attrs
  obtain ⟨pa, hpa, hpakind⟩ := inv.fileNodes p hp
  have hpG : G.hasNode p = true := hasNode_of_mem G hpa
  have hpG1 : G1.hasNode p = true := add_node_hasNode_mono G id attrs hpG
  by_cases hid : G.hasNode id = true
  · -- the entity node already exists: it is an entity of this very file
    obtain ⟨y, hy, hy1⟩ : ∃ y ∈ G.nodes, y.1 = id := by
      have := (hasNode_iff G id).1 hid
      obtain ⟨y, hy, hyid⟩ := List.mem_map.1 this
      exact ⟨y, hy, hyid⟩
    have hyent : y.2.nodeKind = some "function" ∨ y.2.nodeKind = some "class" := by
      rcases inv.nodeShape y hy with h | h | h
      · exfalso
        exact entityId_ne_colonFree p nm y.1 (hdo.cf y.1 h.2) (by rw [hy1])
      · exact h.1
      · exfalso
        obtain ⟨_, m, hm⟩ := h
        rw [hy1] at hm
        exact hdo.nex p hp (entityId_eq_externalId p nm m hcfp hm)
    obtain ⟨p0, n0, hyid2, hyfile, hp0, hfilter⟩ := inv.entityIn y hy hyent
    have hpp : p0 = p ∧ n0 = nm := by
      have : entityId p0 n0 = entityId p nm := by rw [← hyid2, hy1]
      have h2 := entityId_inj p0 p n0 nm (hdo.cf p0 hp0) hcfp this
      exact h2
    rw [hpp.1] at hfilter hyfile
    rw [hpp.1, hpp.2] at hyid2
    rw [hy1] at hfilter
    have hmemE : (p, id, definesAttrs) ∈ G.edges := by
      have hself : (p, id, definesAttrs) ∈ G.edges.filter (fun e => e.2.1 = id) := by
        rw [hfilter]; exact List.mem_singleton_self _
      exact List.mem_of_mem_filter hself
    have hidG1 : G1.hasNode id = true := add_node_hasNode_mono G id attrs
      ((hasNode_iff G id).2 (by rw [← hy1]; exact List.mem_map_of_mem _ hy))
    have hEdge : G1.hasEdge p id = true := by
      rw [Graph.hasEdge, hG1edges]
      exact (hasEdge_iff G p id).2 ⟨definesAttrs, hmemE⟩
    have hedges2 : (G1.add_edge p id definesAttrs).edges = G.edges := by
      rw [add_edge_edges_of_hasEdge G1 p id definesAttrs hpG1 hidG1
        (by rw [Graph.hasEdge, hG1edges] at hEdge ⊢; exact hEdge), hG1edges]
      rw [List.map_congr_left (g := fun e => e) ?_]
      · simp
      · intro e he
        by_cases hc : e.1 = p && e.2.1 = id
        · have hc' : e.2.1 = id := by
            simp only [Bool.and_eq_true, decide_eq_true_eq] at hc
            exact hc.2
          have : e ∈ G.edges.filter (fun e => e.2.1 = id) :=
            List.mem_filter.2 ⟨he, by simp [hc']⟩
          rw [hfilter] at this
          have he' : e = (p, id, definesAttrs) := List.mem_singleton.1 this
          rw [if_pos hc, he']
          rfl
        · rw [if_neg hc]
    have hnodes2 : (G1.add_edge p id definesAttrs).nodes = G1.nodes :=
      add_edge_nodes_of_hasNodes G1 p id definesAttrs hpG1 hidG1
    have hmapfst : (G1.add_edge p id definesAttrs).nodes.map (fun x => x.1) =
        G.nodes.map (fun x => x.1) := by
      rw [hnodes2, hG1_def, add_node_map_fst, if_pos hid]
    have hHN : ∀ z, (G1.add_edge p id definesAttrs).hasNode z = G.hasNode z :=
      hasNode_eq_of_map_fst hmapfst
    refine ⟨?_, ?_, ?_, ?_, ?_, ?_, ?_, ?_⟩
    · rw [hmapfst]; exact inv.nodupN
    · rw [hedges2]; exact inv.nodupE
    · intro e he
      rw [hedges2] at he
      rw [hHN]
      exact inv.endpointsL e he
    · intro e he
      rw [hedges2] at he
      rw [hHN]
      exact inv.endpointsR e he
    · intro q hq
      obtain ⟨a, ha, hak⟩ := inv.fileNodes q hq
      refine ⟨a, ?_, hak⟩
      rw [hnodes2]
      exact add_node_mem_of_ne G id attrs ha
        (by
          show q ≠ id
          intro hqe
          exact entityId_ne_colonFree p nm q (hdo.cf q hq) hqe.symm)
    · intro x hx
      rw [hnodes2] at hx
      rcases mem_add_node G id attrs hx with ⟨y', hy', _, hxy⟩ | ⟨y', hy', hy'id, hxy⟩ | ⟨hfresh, _⟩
      · rw [hxy]; exact inv.nodeShape y' hy'
      · have hyy : y' = y := mem_fst_unique inv.nodupN hy' hy (by rw [hy'id, hy1])
        rw [hxy, hyy, hy1]
        refine Or.inr (Or.inl ⟨?_, p, nm, rfl, hp, ?_⟩)
        · rcases htag with h | h <;> subst h <;> simp [NodeAttrs.updateWith, hattrs_def]
        · simp [NodeAttrs.updateWith, hattrs_def]
      · rw [hfresh] at hid; exact absurd hid (by simp)
    · intro e he
      rw [hedges2] at he
      exact inv.edgeShape e he
    · intro x hx hk
      rw [hnodes2] at hx
      rcases mem_add_node G id attrs hx with ⟨y', hy', hy'ne, hxy⟩ | ⟨y', hy', hy'id, hxy⟩ | ⟨hfresh, _⟩
      · obtain ⟨q, n, h1, h2, h3, h4⟩ := inv.entityIn y' hy' (by rw [← hxy]; exact hk)
        refine ⟨q, n, by rw [hxy]; exact h1, by rw [hxy]; exact h2, h3, ?_⟩
        rw [hedges2, hxy]
        exact h4
      · have hyy : y' = y := mem_fst_unique inv.nodupN hy' hy (by rw [hy'id, hy1])
        refine ⟨p, nm, by rw [hxy, hy'id], ?_, hp, ?_⟩
        · rw [hxy]
          simp [NodeAttrs.updateWith, hattrs_def]
        · rw [hedges2, hxy, hy'id]
          exact hfilter
      · rw [hfresh] at hid; exact absurd hid (by simp)
  · -- fresh entity node
    have hid' : G.hasNode id = false := by
      cases h : G.hasNode id with
      | false => rfl
      | true => exact absurd h hid
    have hfilter0 : G.edges.filter (fun e => e.2.1 = id) = [] :=
      filter_target_nil_of_not_hasNode inv.endpointsR hid'
    have hnodes1 : G1.nodes = G.nodes ++ [(id, attrs)] :=
      add_node_nodes_of_not G id attrs hid'
    have hidG1 : G1.hasNode id = true := by
      rw [hasNode_iff, hnodes1]
      simp
    have hEdge0 : G1.hasEdge p id = false := by
      rw [(hasEdge_false_iff G1 p id)]
      intro e he hc
      rw [hG1edges] at he
      have : e ∈ G.edges.filter (fun e => e.2.1 = id) :=
        List.mem_filter.2 ⟨he, by simp [hc.2]⟩
      rw [hfilter0] at this
      cases this
    have hedges2 : (G1.add_edge p id definesAttrs).edges =
        G.edges ++ [(p, id, definesAttrs)] := by
      rw [add_edge_edges_of_not_hasEdge G1 p id definesAttrs hpG1 hidG1 hEdge0, hG1edges]
    have hnodes2 : (G1.add_edge p id definesAttrs).nodes = G.nodes ++ [(id, attrs)] := by
      rw [add_edge_nodes_of_hasNodes G1 p id definesAttrs hpG1 hidG1, hnodes1]
    have hmapfst : (G1.add_edge p id definesAttrs).nodes.map (fun x => x.1) =
        G.nodes.map (fun x => x.1) ++ [id] := by
      rw [hnodes2]; simp
    refine ⟨?_, ?_, ?_, ?_, ?_, ?_, ?_, ?_⟩
    · rw [hmapfst]
      rw [List.nodup_append]
      refine ⟨inv.nodupN, List.nodup_singleton _, ?_⟩
      intro z hz
      simp only [List.mem_singleton]
      intro hze
      rw [hze] at hz
      rw [(hasNode_iff G id).2 hz] at hid'
      exact Bool.false_ne_true hid'.symm
    · rw [hedges2]
      simp only [List.map_append]
      rw [List.nodup_append]
      refine ⟨inv.nodupE, by simp, ?_⟩
      intro z hz
      obtain ⟨e, he, hez⟩ := List.mem_map.1 hz
      simp only [List.map_cons, List.map_nil, List.mem_singleton]
      intro hze
      rw [hze] at hez
      have : e.2.1 = id := by
        have := congrArg Prod.snd hez
        simpa using this
      have hmem : e ∈ G.edges.filter (fun e => e.2.1 = id) :=
        List.mem_filter.2 ⟨he, by simp [this]⟩
      rw [hfilter0] at hmem
      cases hmem
    · intro e he
      rw [hedges2] at he
      rw [hasNode_iff, hmapfst]
      rcases List.mem_append.1 he with h1 | h1
      · exact List.mem_append_left _ ((hasNode_iff G e.1).1 (inv.endpointsL e h1))
      · have : e = (p, id, definesAttrs) := List.mem_singleton.1 h1
        rw [this]
        exact List.mem_append_left _ ((hasNode_iff G p).1 hpG)
    · intro e he
      rw [hedges2] at he
      rw [hasNode_iff, hmapfst]
      rcases List.mem_append.1 he with h1 | h1
      · exact List.mem_append_left _ ((hasNode_iff G e.2.1).1 (inv.endpointsR e h1))
      · have : e = (p, id, definesAttrs) := List.mem_singleton.1 h1
        rw [this]
        simp
    · intro q hq
      obtain ⟨a, ha, hak⟩ := inv.fileNodes q hq
      exact ⟨a, by rw [hnodes2]; exact List.mem_append_left _ ha, hak⟩
    · intro x hx
      rw [hnodes2] at hx
      rcases List.mem_append.1 hx with h1 | h1
      · exact inv.nodeShape x h1
      · have hxe : x = (id, attrs) := List.mem_singleton.1 h1
        rw [hxe]
        refine Or.inr (Or.inl ⟨?_, p, nm, rfl, hp, rfl⟩)
        rcases htag with h | h <;> subst h <;> simp [hattrs_def]
    · intro e he
      rw [hedges2] at he
      rcases List.mem_append.1 he with h1 | h1
      · exact inv.edgeShape e h1
      · have : e = (p, id, definesAttrs) := List.mem_singleton.1 h1
        rw [this]
        exact ⟨hp, Or.inl ⟨nm, rfl, rfl⟩⟩
    · intro x hx hk
      rw [hnodes2] at hx
      rw [hedges2]
      rcases List.mem_append.1 hx with h1 | h1
      · obtain ⟨q, n, h2, h3, h4, h5⟩ := inv.entityIn x h1 hk
        refine ⟨q, n, h2, h3, h4, ?_⟩
        rw [List.filter_append]
        have hne : x.1 ≠ id := by
          intro hc
          rw [(hasNode_iff G id).2 (by rw [← hc]; exact List.mem_map_of_mem _ h1)] at hid'
          exact Bool.false_ne_true hid'.symm
        rw [show List.filter (fun e => decide (e.2.1 = x.1)) [(p, id, definesAttrs)] = []
          from by
            have hne2 : ¬(id = x.1) := fun hh => hne hh.symm
            simp [hne2]]
        rw [h5]
        simp
      · have hxe : x = (id, attrs) := List.mem_singleton.1 h1
        refine ⟨p, nm, by rw [hxe], by rw [hxe], hp, ?_⟩
        rw [List.filter_append, hxe]
        simp only
        rw [hfilter0]
        simp

theorem addEntity_foldl_inv {done : List String} {G : Graph} (hdo : DoneOk done)
    (inv : GInv done G) (p tag : String) (hp : p ∈ done)
    (htag : tag = "function" ∨ tag = "class") (names : List String) :
    GInv done (names.foldl (addEntity p tag) G) := by
  induction names generalizing G with
  | nil => exact inv
  | cons nm ns ih => exact ih (addEntity_inv hdo inv p tag nm hp htag)

theorem fresh_not_hasNode {done : List String} {G : Graph} (hdo : DoneOk done)
    (inv : GInv done G) (p : String) (hcf : colonFree p = true)
    (hne : p ≠ "external") (hnotin : p ∉ done) : G.hasNode p = false := by
  cases h : G.hasNode p with
  | false => rfl
  | true =>
    exfalso
    obtain ⟨y, hy, hy1⟩ := List.mem_map.1 ((hasNode_iff G p).1 h)
    rcases inv.nodeShape y hy with hs | hs | hs
    · rw [hy1] at hs
      exact hnotin hs.2
    · obtain ⟨_, q, n, hqn, _, _⟩ := hs
      rw [hy1] at hqn
      exact entityId_ne_colonFree q n p hcf hqn.symm
    · obtain ⟨_, m, hm⟩ := hs
      rw [hy1] at hm
      exact externalId_ne_colonFree m p hcf hm.symm

theorem addFileNode_inv {done : List String} {G : Graph} (hdo : DoneOk done)
    (inv : GInv done G) (p : String) (hcf : colonFree p = true)
    (hne : p ≠ "external") (hnotin : p ∉ done) (lang : String) :
    DoneOk (done ++ [p]) ∧
    GInv (done ++ [p])
      (G.add_node p { nodeKind := some "file", language := some lang }) := by
  have hfresh : G.hasNode p = false := fresh_not_hasNode hdo inv p hcf hne hnotin
  set fa : NodeAttrs := { nodeKind := some "file", language := some lang } with hfa
  have hnodes1 : (G.add_node p fa).nodes = G.nodes ++ [(p, fa)] :=
    add_node_nodes_of_not G p fa hfresh
  have hedges1 : (G.add_node p fa).edges = G.edges := add_node_edges G p fa
  have hdone' : DoneOk (done ++ [p]) := by
    refine ⟨?_, ?_, ?_⟩
    · intro q hq
      rcases List.mem_append.1 hq with h | h
      · exact hdo.cf q h
      · rw [List.mem_singleton.1 h]; exact hcf
    · intro q hq
      rcases List.mem_append.1 hq with h | h
      · exact hdo.nex q h
      · rw [List.mem_singleton.1 h]; exact hne
    · rw [List.nodup_append]
      exact ⟨hdo.nd, List.nodup_singleton _, by
        intro z hz
        simp only [List.mem_singleton]
        intro hze
        rw [hze] at hz
        exact hnotin hz⟩
  refine ⟨hdone', ?_, ?_, ?_, ?_, ?_, ?_, ?_, ?_⟩
  · rw [hnodes1]
    simp only [List.map_append]
    rw [List.nodup_append]
    refine ⟨inv.nodupN, by simp, ?_⟩
    intro z hz
    simp only [List.map_cons, List.map_nil, List.mem_singleton]
    intro hze
    rw [hze] at hz
    rw [(hasNode_iff G p).2 hz] at hfresh
    exact Bool.false_ne_true hfresh.symm
  · rw [hedges1]; exact inv.nodupE
  · intro e he
    rw [hedges1] at he
    exact add_node_hasNode_mono G p fa (inv.endpointsL e he)
  · intro e he
    rw [hedges1] at he
    exact add_node_hasNode_mono G p fa (inv.endpointsR e he)
  · intro q hq
    rcases List.mem_append.1 hq with h | h
    · obtain ⟨a, ha, hak⟩ := inv.fileNodes q h
      exact ⟨a, by rw [hnodes1]; exact List.mem_append_left _ ha, hak⟩
    · refine ⟨fa, ?_, rfl⟩
      rw [List.mem_singleton.1 h, hnodes1]
      simp
  · intro x hx
    rw [hnodes1] at hx
    rcases List.mem_append.1 hx with h | h
    · rcases inv.nodeShape x h with hs | hs | hs
      · exact Or.inl ⟨hs.1, List.mem_append_left _ hs.2⟩
      · obtain ⟨hk, q, n, h1, h2, h3⟩ := hs
        exact Or.inr (Or.inl ⟨hk, q, n, h1, List.mem_append_left _ h2, h3⟩)
      · exact Or.inr (Or.inr hs)
    · rw [List.mem_singleton.1 h]
      exact Or.inl ⟨rfl, by simp⟩
  · intro e he
    rw [hedges1] at he
    obtain ⟨h1, h2⟩ := inv.edgeShape e he
    refine ⟨List.mem_append_left _ h1, ?_⟩
    rcases h2 with h | h | h
    · exact Or.inl h
    · exact Or.inr (Or.inl ⟨List.mem_append_left _ h.1, h.2⟩)
    · exact Or.inr (Or.inr h)
  · intro x hx hk
    rw [hnodes1] at hx
    rcases List.mem_append.1 hx with h | h
    · obtain ⟨q, n, h1, h2, h3, h4⟩ := inv.entityIn x h hk
      exact ⟨q, n, h1, h2, List.mem_append_left _ h3, by rw [hedges1]; exact h4⟩
    · exfalso
      have := List.mem_singleton.1 h
      rw [this] at hk
      rcases hk with hh | hh <;> simp [hfa] at hh

theorem processFile_inv (et : Bool) {st : Graph × List (String × FileData)}
    (hdo : DoneOk (st.2.map (fun x => x.1))) (inv : GInv (st.2.map (fun x => x.1)) st.1)
    (f : FileInput) (hcf : colonFree f.relPath = true)
    (hne : f.relPath ≠ "external") (hnotin : f.relPath ∉ st.2.map (fun x => x.1)) :
    ((processFile et st f).2.map (fun x => x.1) = st.2.map (fun x => x.1) ∨
      (processFile et st f).2.map (fun x => x.1) =
        st.2.map (fun x => x.1) ++ [f.relPath]) ∧
    DoneOk ((processFile et st f).2.map (fun x => x.1)) ∧
    GInv ((processFile et st f).2.map (fun x => x.1)) (processFile et st f).1 := by
  rw [processFile]
  by_cases h1 : f.ext ∈ SUPPORTED_EXTENSIONS
  · rw [if_pos h1]
    by_cases h2 : f.isThirdParty
    · rw [if_pos h2]; exact ⟨Or.inl rfl, hdo, inv⟩
    · rw [if_neg h2]
      by_cases h3 : (et && f.isTest) = true
      · rw [if_pos h3]; exact ⟨Or.inl rfl, hdo, inv⟩
      · rw [if_neg h3]
        cases hp : f.parsed with
        | none => exact ⟨Or.inl rfl, hdo, inv⟩
        | some tree =>
          simp only
          have hany : (st.2.any (fun x => x.1 = f.relPath)) = false := by
            cases ha : st.2.any (fun x => x.1 = f.relPath) with
            | false => rfl
            | true =>
              exfalso
              simp only [List.any_eq_true, decide_eq_true_eq] at ha
              obtain ⟨x, hx, hxe⟩ := ha
              exact hnotin (by rw [← hxe]; exact List.mem_map_of_mem _ hx)
          rw [assocSet_of_not_mem _ _ _ hany]
          have hkeys' : ∀ v : FileData,
              ((st.2 ++ [(f.relPath, v)]).map (fun x => x.1)) =
                st.2.map (fun x => x.1) ++ [f.relPath] := by
            intro v; simp
          rw [hkeys' _]
          obtain ⟨hdo', hinv'⟩ := addFileNode_inv hdo inv f.relPath hcf hne hnotin f.ext
          have hpmem : f.relPath ∈ st.2.map (fun x => x.1) ++ [f.relPath] := by simp
          have hinvF := addEntity_foldl_inv hdo' hinv' f.relPath "function" hpmem
            (Or.inl rfl) (extract_functions_and_classes tree).1
          have hinvC := addEntity_foldl_inv hdo' hinvF f.relPath "class" hpmem
            (Or.inr rfl) (extract_functions_and_classes tree).2
          exact ⟨Or.inr rfl, hdo', hinvC⟩
  · rw [if_neg h1]
    exact ⟨Or.inl rfl, hdo, inv⟩

theorem pass1_inv (et : Bool) (files : List FileInput) :
    ∀ (st : Graph × List (String × FileData)),
    DoneOk (st.2.map (fun x => x.1)) → GInv (st.2.map (fun x => x.1)) st.1 →
    (∀ f ∈ files, colonFree f.relPath = true) →
    (∀ f ∈ files, f.relPath ≠ "external") →
    ((files.map FileInput.relPath).Nodup) →
    (∀ f ∈ files, f.relPath ∉ st.2.map (fun x => x.1)) →
    DoneOk (((files.foldl (processFile et) st).2).map (fun x => x.1)) ∧
    GInv (((files.foldl (processFile et) st).2).map (fun x => x.1))
      (files.foldl (processFile et) st).1 ∧
    (∀ q ∈ ((files.foldl (processFile et) st).2).map (fun x => x.1),
      q ∈ st.2.map (fun x => x.1) ∨ q ∈ files.map FileInput.relPath) := by
  induction files with
  | nil =>
    intro st hdo inv _ _ _ _
    exact ⟨hdo, inv, fun q hq => Or.inl hq⟩
  | cons f fs ih =>
    intro st hdo inv hcf hne hnd hdisj
    obtain ⟨hkeys, hdo1, hinv1⟩ := processFile_inv et hdo inv f
      (hcf f (by simp)) (hne f (by simp)) (hdisj f (by simp))
    have hnd' : (fs.map FileInput.relPath).Nodup := by
      simp only [List.map_cons, List.nodup_cons] at hnd
      exact hnd.2
    have hfnotin : f.relPath ∉ fs.map FileInput.relPath := by
      simp only [List.map_cons, List.nodup_cons] at hnd
      exact hnd.1
    have hdisj' : ∀ g ∈ fs, g.relPath ∉ (processFile et st f).2.map (fun x => x.1) := by
      intro g hg hmem
      rcases hkeys with hk | hk
      · rw [hk] at hmem
        exact hdisj g (by simp [hg]) hmem
      · rw [hk] at hmem
        rcases List.mem_append.1 hmem with hm | hm
        · exact hdisj g (by simp [hg]) hm
        · exact hfnotin (by rw [← List.mem_singleton.1 hm]; exact List.mem_map_of_mem _ hg)
    obtain ⟨hdo2, hinv2, hsub⟩ := ih (processFile et st f) hdo1 hinv1
      (fun g hg => hcf g (by simp [hg])) (fun g hg => hne g (by simp [hg])) hnd' hdisj'
    rw [List.foldl_cons]
    refine ⟨hdo2, hinv2, ?_⟩
    intro q hq
    rcases hsub q hq with h | h
    · rcases hkeys with hk | hk
      · rw [hk] at h
        exact Or.inl h
      · rw [hk] at h
        rcases List.mem_append.1 h with hm | hm
        · exact Or.inl hm
        · exact Or.inr (by simp [List.mem_singleton.1 hm])
    · exact Or.inr (by simp [h])

theorem add_edge_imports_inv {done : List String} {G : Graph} (hdo : DoneOk done)
    (inv : GInv done G) (u v : String) (hu : u ∈ done) (hvnode : G.hasNode v = true)
    (hshape : v ∈ done ∨ ∃ m, v = externalId m) (a : EdgeAttrs)
    (ha : a.relationship = some "imports")
    (hvent : ∀ x ∈ G.nodes,
      (x.2.nodeKind = some "function" ∨ x.2.nodeKind = some "class") → v ≠ x.1) :
    GInv done (G.add_edge u v a) := by
  obtain ⟨ua, hua, huak⟩ := inv.fileNodes u hu
  have hunode : G.hasNode u = true := hasNode_of_mem G hua
  have hnodes' : (G.add_edge u v a).nodes = G.nodes :=
    add_edge_nodes_of_hasNodes G u v a hunode hvnode
  have hHN : ∀ z, (G.add_edge u v a).hasNode z = G.hasNode z :=
    hasNode_eq_of_map_fst (by rw [hnodes'])
  by_cases hE : G.hasEdge u v = true
  · have hedges' : (G.add_edge u v a).edges = G.edges.map (fun e =>
        if e.1 = u && e.2.1 = v then (e.1, e.2.1, e.2.2.updateWith a) else e) :=
      add_edge_edges_of_hasEdge G u v a hunode hvnode hE
    refine ⟨?_, ?_, ?_, ?_, ?_, ?_, ?_, ?_⟩
    · rw [hnodes']; exact inv.nodupN
    · rw [hedges', map_update_edge_pairs]; exact inv.nodupE
    · intro e he
      rw [hedges'] at he
      obtain ⟨g, hg, hge⟩ := List.mem_map.1 he
      rw [hHN, ← hge, (update_edge_preserves_key u v a g).1]
      exact inv.endpointsL g hg
    · intro e he
      rw [hedges'] at he
      obtain ⟨g, hg, hge⟩ := List.mem_map.1 he
      rw [hHN, ← hge, (update_edge_preserves_key u v a g).2]
      exact inv.endpointsR g hg
    · intro q hq
      obtain ⟨qa, hqa, hqak⟩ := inv.fileNodes q hq
      exact ⟨qa, by rw [hnodes']; exact hqa, hqak⟩
    · intro x hx
      rw [hnodes'] at hx
      exact inv.nodeShape x hx
    · intro e he
      rw [hedges'] at he
      obtain ⟨g, hg, hge⟩ := List.mem_map.1 he
      obtain ⟨h1, h2⟩ := inv.edgeShape g hg
      by_cases hc : g.1 = u && g.2.1 = v
      · rw [if_pos hc] at hge
        have hcc : g.1 = u ∧ g.2.1 = v := by
          simp only [Bool.and_eq_true, decide_eq_true_eq] at hc
          exact hc
        rw [← hge]
        refine ⟨h1, ?_⟩
        have hrel : (g.2.2.updateWith a).relationship = some "imports" := by
          rw [EdgeAttrs.updateWith]
          simp [ha]
        rcases hshape with hs | hs
        · exact Or.inr (Or.inl ⟨by rw [hcc.2]; exact hs, hrel⟩)
        · exact Or.inr (Or.inr ⟨by rw [hcc.2]; exact hs, hrel⟩)
      · rw [if_neg hc] at hge
        rw [← hge]
        exact ⟨h1, h2⟩
    · intro x hx hk
      rw [hnodes'] at hx
      obtain ⟨q, n, h1, h2, h3, h4⟩ := inv.entityIn x hx hk
      refine ⟨q, n, h1, h2, h3, ?_⟩
      rw [hedges', filter_target_map_update _ _ _ _ _ (hvent x hx hk), h4]
  · have hE' : G.hasEdge u v = false := by
      cases h : G.hasEdge u v with
      | false => rfl
      | true => exact absurd h hE
    have hedges' : (G.add_edge u v a).edges = G.edges ++ [(u, v, a)] :=
      add_edge_edges_of_not_hasEdge G u v a hunode hvnode hE'
    refine ⟨?_, ?_, ?_, ?_, ?_, ?_, ?_, ?_⟩
    · rw [hnodes']; exact inv.nodupN
    · rw [hedges']
      simp only [List.map_append]
      rw [List.nodup_append]
      refine ⟨inv.nodupE, by simp, ?_⟩
      intro z hz
      obtain ⟨e, he, hez⟩ := List.mem_map.1 hz
      simp only [List.map_cons, List.map_nil, List.mem_singleton]
      intro hze
      rw [hze] at hez
      have he1 : e.1 = u := by simpa using congrArg Prod.fst hez
      have he2 : e.2.1 = v := by simpa using congrArg (fun z => z.2) hez
      exact (hasEdge_false_iff G u v).1 hE' e he ⟨he1, he2⟩
    · intro e he
      rw [hedges'] at he
      rw [hHN]
      rcases List.mem_append.1 he with h | h
      · exact inv.endpointsL e h
      · rw [List.mem_singleton.1 h]; exact hunode
    · intro e he
      rw [hedges'] at he
      rw [hHN]
      rcases List.mem_append.1 he with h | h
      · exact inv.endpointsR e h
      · rw [List.mem_singleton.1 h]; exact hvnode
    · intro q hq
      obtain ⟨qa, hqa, hqak⟩ := inv.fileNodes q hq
      exact ⟨qa, by rw [hnodes']; exact hqa, hqak⟩
    · intro x hx
      rw [hnodes'] at hx
      exact inv.nodeShape x hx
    · intro e he
      rw [hedges'] at he
      rcases List.mem_append.1 he with h | h
      · exact inv.edgeShape e h
      · rw [List.mem_singleton.1 h]
        refine ⟨hu, ?_⟩
        rcases hshape with hs | hs
        · exact Or.inr (Or.inl ⟨hs, ha⟩)
        · exact Or.inr (Or.inr ⟨hs, ha⟩)
    · intro x hx hk
      rw [hnodes'] at hx
      obtain ⟨q, n, h1, h2, h3, h4⟩ := inv.entityIn x hx hk
      refine ⟨q, n, h1, h2, h3, ?_⟩
      rw [hedges', List.filter_append]
      rw [show List.filter (fun e => decide (e.2.1 = x.1)) [(u, v, a)] = [] from by
        have := hvent x hx hk
        simp [this]]
      rw [h4]
      simp

theorem external_node_inv {done : List String} {G : Graph} (hdo : DoneOk done)
    (inv : GInv done G) (m : String) :
    GInv done (if G.hasNode (externalId m) = true then G
      else G.add_node (externalId m)
        { nodeKind := some "external", module := some m }) ∧
    (if G.hasNode (externalId m) = true then G
      else G.add_node (externalId m)
        { nodeKind := some "external", module := some m }).hasNode
      (externalId m) = true := by
  by_cases h : G.hasNode (externalId m) = true
  · simp only [h, if_true]
    exact ⟨inv, trivial⟩
  · have h' : G.hasNode (externalId m) = false := by
      cases hh : G.hasNode (externalId m) with
      | false => rfl
      | true => exact absurd hh h
    simp only [h', Bool.false_eq_true, if_false]
    set ea : NodeAttrs := { nodeKind := some "external", module := some m } with hea
    have hnodes1 : (G.add_node (externalId m) ea).nodes = G.nodes ++ [(externalId m, ea)] :=
      add_node_nodes_of_not G (externalId m) ea h'
    have hedges1 : (G.add_node (externalId m) ea).edges = G.edges :=
      add_node_edges G (externalId m) ea
    refine ⟨⟨?_, ?_, ?_, ?_, ?_, ?_, ?_, ?_⟩, ?_⟩
    · exact add_node_nodup G (externalId m) ea inv.nodupN
    · rw [hedges1]; exact inv.nodupE
    · intro e he
      rw [hedges1] at he
      exact add_node_hasNode_mono G (externalId m) ea (inv.endpointsL e he)
    · intro e he
      rw [hedges1] at he
      exact add_node_hasNode_mono G (externalId m) ea (inv.endpointsR e he)
    · intro q hq
      obtain ⟨qa, hqa, hqak⟩ := inv.fileNodes q hq
      exact ⟨qa, by rw [hnodes1]; exact List.mem_append_left _ hqa, hqak⟩
    · intro x hx
      rw [hnodes1] at hx
      rcases List.mem_append.1 hx with hxx | hxx
      · exact inv.nodeShape x hxx
      · rw [List.mem_singleton.1 hxx]
        exact Or.inr (Or.inr ⟨rfl, m, rfl⟩)
    · intro e he
      rw [hedges1] at he
      exact inv.edgeShape e he
    · intro x hx hk
      rw [hnodes1] at hx
      rcases List.mem_append.1 hx with hxx | hxx
      · obtain ⟨q, n, h1, h2, h3, h4⟩ := inv.entityIn x hxx hk
        exact ⟨q, n, h1, h2, h3, by rw [hedges1]; exact h4⟩
      · exfalso
        have := List.mem_singleton.1 hxx
        rw [this] at hk
        rcases hk with hh | hh <;> simp [hea] at hh
    · rw [hasNode_iff, hnodes1]
      simp

theorem entity_target_ne {done : List String} {G : Graph} (hdo : DoneOk done)
    (inv : GInv done G) (v : String) (hshape : v ∈ done ∨ ∃ m, v = externalId m) :
    ∀ x ∈ G.nodes,
      (x.2.nodeKind = some "function" ∨ x.2.nodeKind = some "class") → v ≠ x.1 := by
  intro x hx hk
  obtain ⟨q, n, h1, _, h3, _⟩ := inv.entityIn x hx hk
  rcases hshape with hs | hs
  · intro hc
    rw [hc, h1] at hs
    have := hdo.cf _ hs
    rw [entityId_not_colonFree] at this
    exact Bool.false_ne_true this
  · obtain ⟨m, hm⟩ := hs
    intro hc
    have heq : entityId q n = externalId m := by rw [← h1, ← hc, hm]
    exact hdo.nex q h3 (entityId_eq_externalId q n m (hdo.cf q h3) heq)

theorem processImport_inv {done : List String} {G : Graph} (hdo : DoneOk done)
    (inv : GInv done G) (fp : String) (hf : fp ∈ done) (imp : ImportRec) :
    GInv done (processImport done fp G imp) := by
  rw [processImport]
  cases hfind : done.find? (fun p => moduleMatches imp.module p) with
  | some q =>
    have hq : q ∈ done := List.mem_of_find?_eq_some hfind
    obtain ⟨qa, hqa, _⟩ := inv.fileNodes q hq
    exact add_edge_imports_inv hdo inv fp q hf (hasNode_of_mem G hqa) (Or.inl hq) _
      rfl (entity_target_ne hdo inv q (Or.inl hq))
  | none =>
    simp only
    obtain ⟨hinv1, hext1⟩ := external_node_inv hdo inv imp.module
    set G1 := if G.hasNode (externalId imp.module) = true then G
      else G.add_node (externalId imp.module)
        { nodeKind := some "external", module := some imp.module } with hG1
    exact add_edge_imports_inv hdo hinv1 fp (externalId imp.module) hf hext1
      (Or.inr ⟨imp.module, rfl⟩) _ rfl
      (entity_target_ne hdo hinv1 (externalId imp.module) (Or.inr ⟨imp.module, rfl⟩))

theorem imports_foldl_inv {done : List String} (hdo : DoneOk done) (fp : String)
    (hf : fp ∈ done) (imps : List ImportRec) :
    ∀ G, GInv done G → GInv done (imps.foldl (processImport done fp) G) := by
  induction imps with
  | nil => intro G h; exact h
  | cons i is ih =>
    intro G h
    exact ih _ (processImport_inv hdo h fp hf i)

theorem pass2_foldl_inv {done : List String} (hdo : DoneOk done)
    (l : List (String × FileData)) :
    ∀ G, GInv done G → (∀ pd ∈ l, pd.1 ∈ done) →
    GInv done (l.foldl (fun G pd => pd.2.imports.foldl (processImport done pd.1) G) G) := by
  induction l with
  | nil => intro G h _; exact h
  | cons pd rest ih =>
    intro G h hmem
    exact ih _ (imports_foldl_inv hdo pd.1 (hmem pd (by simp)) pd.2.imports G h)
      (fun q hq => hmem q (by simp [hq]))

theorem pass2_inv {done : List String} (hdo : DoneOk done)
    (fd : List (String × FileData)) (hkeys : fd.map (fun x => x.1) = done)
    (G : Graph) (inv : GInv done G) : GInv done (pass2 G fd) := by
  rw [pass2, hkeys]
  exact pass2_foldl_inv hdo fd G inv
    (fun pd hpd => by rw [← hkeys]; exact List.mem_map_of_mem _ hpd)

theorem build_inv (files : List FileInput) (et : Bool)
    (hcf : ∀ f ∈ files, colonFree f.relPath = true)
    (hne : ∀ f ∈ files, f.relPath ≠ "external")
    (hnd : (files.map FileInput.relPath).Nodup) :
    DoneOk ((build_dependency_graph files et).2.map (fun x => x.1)) ∧
    GInv ((build_dependency_graph files et).2.map (fun x => x.1))
      (build_dependency_graph files et).1 := by
  have hdo0 : DoneOk ((Graph.empty, ([] : List (String × FileData))).2.map
      (fun x => x.1)) := by
    refine ⟨?_, ?_, ?_⟩
    · intro p hp; cases hp
    · intro p hp; cases hp
    · exact List.nodup_nil
  have hinv0 : GInv ((Graph.empty, ([] : List (String × FileData))).2.map
      (fun x => x.1)) (Graph.empty, ([] : List (String × FileData))).1 := GInv.empty
  obtain ⟨hdo, hinv, _⟩ := pass1_inv et files (Graph.empty, []) hdo0 hinv0 hcf hne hnd
    (by intro f _ hmem; cases hmem)
  rw [build_dependency_graph]
  exact ⟨hdo, pass2_inv hdo _ rfl _ hinv⟩

theorem decisionPointValue_eq (d : CSTNode) :
    decisionPointValue d = if isCountedDecisionPoint d = true then 1 else 0 := by
  rw [decisionPointValue, isCountedDecisionPoint]
  by_cases h1 : d.kind ∈ DECISION_NODE_TYPES <;>
    by_cases h2 : d.kind = "boolean_operator" ∨ d.kind = "binary_expression" <;>
      by_cases h3 : (LOGICAL_OPERATOR_TOKENS.any fun op => strHas d.text op) = true <;>
        simp [h1, h2, h3] <;> split <;> simp_all

theorem sum_decisionPointValue (l : List CSTNode) :
    (l.map decisionPointValue).sum = l.countP isCountedDecisionPoint := by
  induction l with
  | nil => rfl
  | cons d ds ih =>
    rw [List.map_cons, List.sum_cons, List.countP_cons, decisionPointValue_eq d, ih]
    split <;> omega

theorem function_kind_not_decision (k : String) (h : k ∈ FUNCTION_NODE_TYPES) :
    k ∉ DECISION_NODE_TYPES := by
  fin_cases h <;> decide

/-- C1: for every function-like CST node, calculate_cyclomatic_complexity
returns 1 plus the number of descendant nodes whose type is in the
decision-point set, with the two ambiguous types (boolean_operator,
binary_expression) counted only when their literal text contains one of
the tokens '&&', '||', ' and ', ' or '; a function with zero decision-point
descendants scores exactly 1, and the result is always at least 1. -/
theorem claim_C1_cyclomatic_complexity (node : CSTNode)
    (h : node.kind ∈ FUNCTION_NODE_TYPES) :
    calculate_cyclomatic_complexity node = 1 + claimedDecisionCount node ∧
    1 ≤ calculate_cyclomatic_complexity node ∧
    (claimedDecisionCount node = 0 → calculate_cyclomatic_complexity node = 1) := by
  have hmain : calculate_cyclomatic_complexity node = 1 + claimedDecisionCount node := by
    rw [calculate_cyclomatic_complexity, claimedDecisionCount]
    cases node with
    | mk k t cs =>
      rw [CSTNode.subtree, List.map_cons, List.sum_cons]
      have h0 : decisionPointValue (CSTNode.mk k t cs) = 0 := by
        rw [decisionPointValue]
        rw [if_neg (function_kind_not_decision _ h)]
      rw [h0, sum_decisionPointValue]
      simp [CSTNode.children]
  exact ⟨hmain, by rw [hmain]; omega, fun hz => by rw [hmain, hz]⟩

theorem claim_C1_cyclomatic_complexity_witness :
    sampleFunctionNode.kind ∈ FUNCTION_NODE_TYPES ∧
    (calculate_cyclomatic_complexity sampleFunctionNode =
        1 + claimedDecisionCount sampleFunctionNode ∧
      1 ≤ calculate_cyclomatic_complexity sampleFunctionNode ∧
      (claimedDecisionCount sampleFunctionNode = 0 →
        calculate_cyclomatic_complexity sampleFunctionNode = 1)) :=
  ⟨by decide, claim_C1_cyclomatic_complexity sampleFunctionNode (by decide)⟩

/-- C3: evaluation of extract_python_imports at the claim's inputs. For
`from X import a, b` the recorded module is "b" (the last imported name:
every dotted_name child re-assigns module, and the items branch of the
if/elif chain is unreachable for dotted_name children), and the items list
is empty; for `from .b import x` the recorded module is "x" (the
relative_import node matches no branch, so the dots are lost). The claim's
module = X, items = [a, b] and dot preservation all fail on the code. -/
theorem claim_C3_from_import_extraction :
    extract_python_imports cstModuleXab =
      [{ importKind := "from_import", module := "b", items := [] }] ∧
    extract_python_imports cstModuleDotB =
      [{ importKind := "from_import", module := "x", items := [] }] := by
  constructor <;> decide

/-- C2 counterexample: with pkg/a.py containing `from .b import x` and
pkg/b.py present, the built graph holds exactly one imports edge, from
pkg/a.py to the external node external::x — not an imports edge to
pkg/b.py as the claim's relative-import rule requires. (The recorded
module string is "x", and the substring matching of pass 2 finds no
candidate.) -/
theorem claim_C2_import_resolution_counterexample :
    (build_dependency_graph [pkgAFile, pkgBFile] true).1.edges =
      [("pkg/a.py", "external::x",
        { relationship := some "imports", module := some "x" })] ∧
    (build_dependency_graph [pkgAFile, pkgBFile] true).1.nodes.map (fun x => x.1) =
      ["pkg/a.py", "pkg/b.py", "external::x"] := by
  constructor <;> decide

/-- C9 counterexample: a function definition with no identifier child is
not recorded at all by extract_functions_and_classes (the `if name:` guard
drops it), so the dependency graph of its file holds no function node —
the claim's "recorded with a null name ... in the dependency graph alike"
fails. -/
theorem claim_C9_sentinel_counterexample :
    extract_functions_and_classes cstNamelessModule = ([], []) ∧
    (build_dependency_graph [namelessFile] true).1.nodes.map (fun x => x.1) =
      ["f.py"] := by
  constructor <;> decide

/-- C9 amended: a nameless definition never aborts its file's traversal,
but the two sides treat it differently. A function-typed node with no
identifier-like child is skipped by the graph-side extractor (recorded
under no name) while the traversal continues into its descendants; in the
complexity report that function is still counted, and when its complexity
is above the medium threshold it is recorded with the sentinel name
"unknown". A class node with no identifier child is likewise skipped by
the graph-side extractor with the traversal continuing, and a class node
never enters the complexity scan at all: find_functions keeps only
function-typed nodes, so the class contributes nothing while its
descendants are still scanned. -/
theorem claim_C9_sentinel_amended (k t : String) (cs : List CSTNode)
    (hk : k ∈ FUNCTION_NODE_TYPES)
    (hnoid : firstIdentLikeChild (CSTNode.mk k t cs) = none)
    (rel : String) (res : AnalysisResults) (node : CSTNode)
    (hk2 : node.kind ∈ FUNCTION_NODE_TYPES)
    (hnoid2 : firstIdentLikeChild node = none)
    (hcomplex : COMPLEXITY_THRESHOLDS.medium.2 < calculate_cyclomatic_complexity node)
    (kc tc : String) (ccs : List CSTNode)
    (hkc : kc = "class_definition" ∨ kc = "class_declaration")
    (hnoidc : firstIdentChild (CSTNode.mk kc tc ccs) = none) :
    (extract_functions_and_classes (CSTNode.mk k t cs)).1 =
      (CSTNode.subtreeList cs).flatMap functionNamesAt ∧
    (processFunctionNode rel res node).complex_functions =
      res.complex_functions ++
        [{ file_path := rel, function_name := "unknown", content := node.text,
           complexity := calculate_cyclomatic_complexity node }] ∧
    (processFunctionNode rel res node).total_functions = res.total_functions + 1 ∧
    (extract_functions_and_classes (CSTNode.mk kc tc ccs)).2 =
      (CSTNode.subtreeList ccs).flatMap classNamesAt ∧
    find_functions (CSTNode.mk kc tc ccs) =
      (CSTNode.subtreeList ccs).filter (fun n => n.kind ∈ FUNCTION_NODE_TYPES) := by
  have hnf : kc ∉ FUNCTION_NODE_TYPES := by
    rcases hkc with h | h <;> rw [h] <;> decide
  refine ⟨?_, ?_, ?_, ?_, ?_⟩
  · rw [extract_functions_and_classes]
    simp only
    rw [CSTNode.subtree, List.flatMap_cons]
    rw [show functionNamesAt (CSTNode.mk k t cs) = [] from by
      rw [functionNamesAt]
      simp only [CSTNode.kind]
      rw [if_pos hk, hnoid]]
    rw [List.nil_append]
  · rw [processFunctionNode, hnoid2]
    simp only [nameOrUnknown]
    rw [if_pos hcomplex]
    split_ifs <;> rfl
  · rw [processFunctionNode]
    split_ifs <;> rfl
  · rw [extract_functions_and_classes]
    simp only
    rw [CSTNode.subtree, List.flatMap_cons]
    rw [show classNamesAt (CSTNode.mk kc tc ccs) = [] from by
      rw [classNamesAt]
      simp only [CSTNode.kind]
      rw [if_neg hnf, if_pos hkc, hnoidc]]
    rw [List.nil_append]
  · rw [find_functions, CSTNode.subtree, List.filter_cons]
    simp only [CSTNode.kind]
    simp [hnf]

theorem claim_C9_sentinel_amended_witness :
    (extract_functions_and_classes (CSTNode.mk "function_definition" "def (): pass"
        [CSTNode.mk "parameters" "()" []])).1 =
      (CSTNode.subtreeList [CSTNode.mk "parameters" "()" []]).flatMap functionNamesAt ∧
    (processFunctionNode "z.py" initResults cstBigNamelessFn).complex_functions =
      initResults.complex_functions ++
        [{ file_path := "z.py", function_name := "unknown",
           content := cstBigNamelessFn.text,
           complexity := calculate_cyclomatic_complexity cstBigNamelessFn }] ∧
    (processFunctionNode "z.py" initResults cstBigNamelessFn).total_functions =
      initResults.total_functions + 1 ∧
    (extract_functions_and_classes (CSTNode.mk "class_definition" "class : pass"
        [CSTNode.mk "block" "pass" []])).2 =
      (CSTNode.subtreeList [CSTNode.mk "block" "pass" []]).flatMap classNamesAt ∧
    find_functions (CSTNode.mk "class_definition" "class : pass"
        [CSTNode.mk "block" "pass" []]) =
      (CSTNode.subtreeList [CSTNode.mk "block" "pass" []]).filter
        (fun n => n.kind ∈ FUNCTION_NODE_TYPES) :=
  claim_C9_sentinel_amended "function_definition" "def (): pass"
    [CSTNode.mk "parameters" "()" []] (by decide) (by decide)
    "z.py" initResults cstBigNamelessFn (by decide) (by decide) (by decide)
    "class_definition" "class : pass" [CSTNode.mk "block" "pass" []]
    (Or.inl rfl) (by decide)

theorem processFile_skip_of_parse_none (et : Bool)
    (st : Graph × List (String × FileData)) (f : FileInput)
    (hf : f.parsed = none) : processFile et st f = st := by
  rw [processFile, hf]
  split_ifs <;> rfl

theorem processFileFunctions_skip_of_parse_none (exT et : Bool)
    (res : AnalysisResults) (f : FileInput) (hf : f.parsed = none) :
    processFileFunctions exT et res f = res := by
  rw [processFileFunctions, hf]
  split_ifs <;> rfl

/-- C8: a file whose read/parse/extraction raises (modelled by
parsed = none) is excluded entirely: the built graph, the retained file
data and the analyze_functions report are identical with and without that
file, so it is present as no node, contributes no edges and no functions,
and the rest of the run is unaffected (both functions stay total — no
error reaches the caller). -/
theorem claim_C8_parse_failure_isolated (pre post : List FileInput)
    (f : FileInput) (hf : f.parsed = none) (et exT exTests : Bool) :
    build_dependency_graph (pre ++ f :: post) et =
      build_dependency_graph (pre ++ post) et ∧
    analyze_functions (pre ++ f :: post) exT exTests =
      analyze_functions (pre ++ post) exT exTests := by
  constructor
  · rw [build_dependency_graph, build_dependency_graph]
    rw [List.foldl_append, List.foldl_append, List.foldl_cons]
    rw [processFile_skip_of_parse_none et _ f hf]
  · rw [analyze_functions, analyze_functions]
    rw [List.foldl_append, List.foldl_append, List.foldl_cons]
    rw [processFileFunctions_skip_of_parse_none exT exTests _ f hf]

theorem claim_C8_parse_failure_isolated_witness :
    build_dependency_graph ([okFile] ++ badFile :: []) true =
      build_dependency_graph ([okFile] ++ []) true ∧
    analyze_functions ([okFile] ++ badFile :: []) true true =
      analyze_functions ([okFile] ++ []) true true :=
  claim_C8_parse_failure_isolated [okFile] [] badFile (by decide) true true true

/-- C5: in every graph built by build_dependency_graph (from a walk whose
relative paths are colon-free, pairwise distinct, and never the literal
"external" — true of any real repository), every node of type `function`
or `class` has exactly one incoming edge, that edge is a `defines` edge
whose source is the node's owning file (a `file`-typed node), and the
node has zero outgoing edges. -/
theorem claim_C5_entity_edge_invariant (files : List FileInput) (et : Bool)
    (hcf : ∀ f ∈ files, colonFree f.relPath = true)
    (hne : ∀ f ∈ files, f.relPath ≠ "external")
    (hnd : (files.map FileInput.relPath).Nodup) :
    ∀ x ∈ (build_dependency_graph files et).1.nodes,
      (x.2.nodeKind = some "function" ∨ x.2.nodeKind = some "class") →
      (build_dependency_graph files et).1.inDegree x.1 = 1 ∧
      (∀ e ∈ (build_dependency_graph files et).1.edges, e.2.1 = x.1 →
        e.2.2.relationship = some "defines" ∧ some e.1 = x.2.file ∧
        (build_dependency_graph files et).1.nodeTypeOf e.1 = some "file") ∧
      (build_dependency_graph files et).1.outDegree x.1 = 0 := by
  obtain ⟨hdo, hinv⟩ := build_inv files et hcf hne hnd
  intro x hx hk
  obtain ⟨p, n, h1, h2, h3, h4⟩ := hinv.entityIn x hx hk
  refine ⟨?_, ?_, ?_⟩
  · rw [Graph.inDegree, h4]
    rfl
  · intro e he het
    have hef : e ∈ (build_dependency_graph files et).1.edges.filter
        (fun e => e.2.1 = x.1) := List.mem_filter.2 ⟨he, by simp [het]⟩
    rw [h4] at hef
    have he' : e = (p, x.1, definesAttrs) := List.mem_singleton.1 hef
    rw [he']
    refine ⟨rfl, by rw [h2], ?_⟩
    obtain ⟨pa, hpa, hpak⟩ := hinv.fileNodes p h3
    rw [Graph.nodeTypeOf, Graph.nodeAttrs]
    rw [show (p, x.1, definesAttrs).1 = p from rfl]
    rw [find?_of_mem_nodup hinv.nodupN hpa]
    simp [hpak]
  · rw [Graph.outDegree]
    rw [List.filter_eq_nil_iff.2 ?_]
    · rfl
    · intro e he
      simp only [decide_eq_true_eq]
      intro hc
      have hdone := (hinv.edgeShape e he).1
      rw [hc, h1] at hdone
      have hcf' := hdo.cf _ hdone
      rw [entityId_not_colonFree] at hcf'
      exact Bool.false_ne_true hcf'

theorem claim_C5_entity_edge_invariant_witness :
    (build_dependency_graph [definingFile] true).1.inDegree "m.py::g" = 1 ∧
    (build_dependency_graph [definingFile] true).1.outDegree "m.py::g" = 0 :=
  have h := claim_C5_entity_edge_invariant [definingFile] true (by decide) (by decide)
    (by decide)
    ("m.py::g", { nodeKind := some "function", name := some "g", file := some "m.py" })
    (by decide) (Or.inl rfl)
  ⟨h.1, h.2.2⟩

theorem analyze_dependencies_chains_eq (files : List FileInput) (exT et : Bool) :
    (analyze_dependencies files exT et).circular_dependency_chains =
      ((simple_cycles (analysisGraph files exT et)).filter (fun cyc =>
        cyc.all (fun v => (analysisGraph files exT et).nodeTypeOf v = some "file"))).take
        10 := rfl

/-- C6: every reported circular-dependency chain consists only of nodes
whose type is `file`, at most the first 10 chains are listed, and in the
two-file scenario (a.py imports b, b.py imports a) exactly the one cycle
[a.py, b.py] is reported while removing either import leaves no reported
cycle. -/
theorem claim_C6_file_cycles :
    (∀ (files : List FileInput) (exT et : Bool),
      ∀ c ∈ (analyze_dependencies files exT et).circular_dependency_chains,
        ∀ v ∈ c, (analysisGraph files exT et).nodeTypeOf v = some "file") ∧
    (∀ (files : List FileInput) (exT et : Bool),
      (analyze_dependencies files exT et).circular_dependency_chains.length ≤ 10) ∧
    (analyze_dependencies [cycleFileA, cycleFileB] true true).circular_dependency_chains =
      [["a.py", "b.py"]] ∧
    (analyze_dependencies [cycleFileA, cycleFileBNoImport]
      true true).circular_dependency_chains = [] ∧
    (analyze_dependencies [cycleFileANoImport, cycleFileB]
      true true).circular_dependency_chains = [] := by
  refine ⟨?_, ?_, by decide, by decide, by decide⟩
  · intro files exT et c hc v hv
    rw [analyze_dependencies_chains_eq] at hc
    have hc2 := List.mem_filter.1 (List.take_subset 10 _ hc)
    have := hc2.2
    simp only [List.all_eq_true, decide_eq_true_eq] at this
    exact this v hv
  · intro files exT et
    rw [analyze_dependencies_chains_eq]
    calc (((simple_cycles (analysisGraph files exT et)).filter _).take 10).length
        ≤ 10 := by rw [List.length_take]; omega

theorem claim_C6_file_cycles_witness :
    (analysisGraph [cycleFileA, cycleFileB] true true).nodeTypeOf "a.py" =
      some "file" :=
  claim_C6_file_cycles.1 [cycleFileA, cycleFileB] true true ["a.py", "b.py"]
    (by decide) "a.py" (by decide)

theorem processFunctionNode_fields (rel : String) (res : AnalysisResults)
    (node : CSTNode) :
    (processFunctionNode rel res node).dist_low =
      res.dist_low + (if calculate_cyclomatic_complexity node ≤ 5 then 1 else 0) ∧
    (processFunctionNode rel res node).dist_medium =
      res.dist_medium + (if 6 ≤ calculate_cyclomatic_complexity node ∧
        calculate_cyclomatic_complexity node ≤ 10 then 1 else 0) ∧
    (processFunctionNode rel res node).dist_high =
      res.dist_high + (if 11 ≤ calculate_cyclomatic_complexity node ∧
        calculate_cyclomatic_complexity node ≤ 20 then 1 else 0) ∧
    (processFunctionNode rel res node).dist_very_high =
      res.dist_very_high + (if 20 < calculate_cyclomatic_complexity node then 1 else 0) ∧
    (processFunctionNode rel res node).complex_functions =
      res.complex_functions ++
        (if 10 < calculate_cyclomatic_complexity node then [complexRecordOf rel node]
         else []) ∧
    (processFunctionNode rel res node).total_functions = res.total_functions + 1 := by
  rw [processFunctionNode]
  simp only [COMPLEXITY_THRESHOLDS, complexRecordOf]
  split_ifs <;> simp_all <;> omega

theorem foldl_processFunctionNode_fields (rel : String) (l : List CSTNode) :
    ∀ res : AnalysisResults,
    (l.foldl (processFunctionNode rel) res).dist_low =
      res.dist_low + (l.filter (fun n => calculate_cyclomatic_complexity n ≤ 5)).length ∧
    (l.foldl (processFunctionNode rel) res).dist_medium =
      res.dist_medium + (l.filter (fun n => 6 ≤ calculate_cyclomatic_complexity n ∧
        calculate_cyclomatic_complexity n ≤ 10)).length ∧
    (l.foldl (processFunctionNode rel) res).dist_high =
      res.dist_high + (l.filter (fun n => 11 ≤ calculate_cyclomatic_complexity n ∧
        calculate_cyclomatic_complexity n ≤ 20)).length ∧
    (l.foldl (processFunctionNode rel) res).dist_very_high =
      res.dist_very_high +
        (l.filter (fun n => 20 < calculate_cyclomatic_complexity n)).length ∧
    (l.foldl (processFunctionNode rel) res).complex_functions =
      res.complex_functions ++ (l.filterMap (fun n =>
        if 10 < calculate_cyclomatic_complexity n then some (complexRecordOf rel n)
        else none)) ∧
    (l.foldl (processFunctionNode rel) res).total_functions =
      res.total_functions + l.length := by
  induction l with
  | nil => intro res; simp
  | cons n ns ih =>
    intro res
    rw [List.foldl_cons]
    obtain ⟨i1, i2, i3, i4, i5, i6⟩ := ih (processFunctionNode rel res n)
    obtain ⟨s1, s2, s3, s4, s5, s6⟩ := processFunctionNode_fields rel res n
    refine ⟨?_, ?_, ?_, ?_, ?_, ?_⟩
    · rw [i1, s1, List.filter_cons]
      by_cases h : calculate_cyclomatic_complexity n ≤ 5 <;> simp [h] <;> omega
    · rw [i2, s2, List.filter_cons]
      by_cases h : 6 ≤ calculate_cyclomatic_complexity n ∧
        calculate_cyclomatic_complexity n ≤ 10 <;> simp [h] <;> omega
    · rw [i3, s3, List.filter_cons]
      by_cases h : 11 ≤ calculate_cyclomatic_complexity n ∧
        calculate_cyclomatic_complexity n ≤ 20 <;> simp [h] <;> omega
    · rw [i4, s4, List.filter_cons]
      by_cases h : 20 < calculate_cyclomatic_complexity n <;> simp [h] <;> omega
    · rw [i5, s5, List.filterMap_cons]
      by_cases h : 10 < calculate_cyclomatic_complexity n <;> simp [h]
    · rw [i6, s6, List.length_cons]
      omega

theorem processFileFunctions_cases (exT exTests : Bool) (res : AnalysisResults)
    (f : FileInput) :
    processFileFunctions exT exTests res f =
      (match f.parsed with
       | some tree =>
          if includedForAnalysis exT exTests f = true then
            (find_functions tree).foldl (processFunctionNode f.relPath)
              { res with files_analyzed := res.files_analyzed + 1 }
          else res
       | none => res) := by
  rw [processFileFunctions, includedForAnalysis]
  cases hp : f.parsed with
  | none => split_ifs <;> rfl
  | some tree =>
    simp only [hp, Option.isSome_some, Bool.and_true]
    by_cases h1 : f.ext ∈ SUPPORTED_EXTENSIONS <;>
      by_cases h2 : (exT && f.isThirdParty) = true <;>
        by_cases h3 : (exTests && f.isTest) = true <;>
          simp [h1, h2, h3]

theorem foldl_processFileFunctions_fields (exT exTests : Bool)
    (files : List FileInput) :
    ∀ res : AnalysisResults,
    (files.foldl (processFileFunctions exT exTests) res).dist_low =
      res.dist_low + ((analyzedFunctionEntries exT exTests files).filter
        (fun e => calculate_cyclomatic_complexity e.2 ≤ 5)).length ∧
    (files.foldl (processFileFunctions exT exTests) res).dist_medium =
      res.dist_medium + ((analyzedFunctionEntries exT exTests files).filter
        (fun e => 6 ≤ calculate_cyclomatic_complexity e.2 ∧
          calculate_cyclomatic_complexity e.2 ≤ 10)).length ∧
    (files.foldl (processFileFunctions exT exTests) res).dist_high =
      res.dist_high + ((analyzedFunctionEntries exT exTests files).filter
        (fun e => 11 ≤ calculate_cyclomatic_complexity e.2 ∧
          calculate_cyclomatic_complexity e.2 ≤ 20)).length ∧
    (files.foldl (processFileFunctions exT exTests) res).dist_very_high =
      res.dist_very_high + ((analyzedFunctionEntries exT exTests files).filter
        (fun e => 20 < calculate_cyclomatic_complexity e.2)).length ∧
    (files.foldl (processFileFunctions exT exTests) res).complex_functions =
      res.complex_functions ++
        (analyzedFunctionEntries exT exTests files).filterMap complexEntryRecord ∧
    (files.foldl (processFileFunctions exT exTests) res).total_functions =
      res.total_functions + (analyzedFunctionEntries exT exTests files).length := by
  induction files with
  | nil => intro res; simp [analyzedFunctionEntries]
  | cons f fs ih =>
    intro res
    rw [List.foldl_cons, processFileFunctions_cases]
    have hentries : analyzedFunctionEntries exT exTests (f :: fs) =
        (if includedForAnalysis exT exTests f = true then
          (match f.parsed with
           | some tree => (find_functions tree).map (fun n => (f.relPath, n))
           | none => []) else []) ++ analyzedFunctionEntries exT exTests fs := by
      rw [analyzedFunctionEntries, List.filter_cons]
      by_cases hi : includedForAnalysis exT exTests f = true
      · simp [hi, analyzedFunctionEntries]
      · simp [hi, analyzedFunctionEntries]
    cases hp : f.parsed with
    | none =>
      have hinc : includedForAnalysis exT exTests f = false := by
        rw [includedForAnalysis, hp]
        simp
      rw [hentries, hinc]
      simp only [Bool.false_eq_true, if_false, List.nil_append]
      exact ih res
    | some tree =>
      dsimp only
      by_cases hi : includedForAnalysis exT exTests f = true
      · rw [if_pos hi]
        obtain ⟨i1, i2, i3, i4, i5, i6⟩ := ih ((find_functions tree).foldl
          (processFunctionNode f.relPath)
          { res with files_analyzed := res.files_analyzed + 1 })
        obtain ⟨n1, n2, n3, n4, n5, n6⟩ := foldl_processFunctionNode_fields
          f.relPath (find_functions tree)
          { res with files_analyzed := res.files_analyzed + 1 }
        rw [hentries, hp, if_pos hi]
        refine ⟨?_, ?_, ?_, ?_, ?_, ?_⟩
        · rw [i1, n1, List.filter_append, List.length_append, List.filter_map,
            List.length_map]
          simp [Function.comp_def]
          try omega
        · rw [i2, n2, List.filter_append, List.length_append, List.filter_map,
            List.length_map]
          simp [Function.comp_def]
          try omega
        · rw [i3, n3, List.filter_append, List.length_append, List.filter_map,
            List.length_map]
          simp [Function.comp_def]
          try omega
        · rw [i4, n4, List.filter_append, List.length_append, List.filter_map,
            List.length_map]
          simp [Function.comp_def]
          try omega
        · rw [i5, n5, List.filterMap_append, List.filterMap_map]
          simp [Function.comp_def, complexEntryRecord, List.append_assoc]
        · rw [i6, n6, List.length_append, List.length_map]
          simp
          try omega
      · rw [if_neg hi, hentries]
        have hi' : includedForAnalysis exT exTests f = false := by
          cases hh : includedForAnalysis exT exTests f with
          | false => rfl
          | true => exact absurd hh hi
        rw [hi']
        simp only [Bool.false_eq_true, if_false, List.nil_append]
        exact ih res

/-- C7: analyze_functions buckets each function complexity c as low
(c ≤ 5), medium (6 ≤ c ≤ 10), high (11 ≤ c ≤ 20), very_high (c > 20), and
its complex_functions list holds exactly one record — file path, function
name, full source text, complexity — for each visited function whose
complexity is above the medium threshold (c > 10), in visit order. -/
theorem claim_C7_complexity_buckets (files : List FileInput) (exT exTests : Bool) :
    (analyze_functions files exT exTests).dist_low =
      ((analyzedFunctionEntries exT exTests files).filter
        (fun e => calculate_cyclomatic_complexity e.2 ≤ 5)).length ∧
    (analyze_functions files exT exTests).dist_medium =
      ((analyzedFunctionEntries exT exTests files).filter
        (fun e => 6 ≤ calculate_cyclomatic_complexity e.2 ∧
          calculate_cyclomatic_complexity e.2 ≤ 10)).length ∧
    (analyze_functions files exT exTests).dist_high =
      ((analyzedFunctionEntries exT exTests files).filter
        (fun e => 11 ≤ calculate_cyclomatic_complexity e.2 ∧
          calculate_cyclomatic_complexity e.2 ≤ 20)).length ∧
    (analyze_functions files exT exTests).dist_very_high =
      ((analyzedFunctionEntries exT exTests files).filter
        (fun e => 20 < calculate_cyclomatic_complexity e.2)).length ∧
    (analyze_functions files exT exTests).complex_functions =
      (analyzedFunctionEntries exT exTests files).filterMap complexEntryRecord ∧
    (analyze_functions files exT exTests).total_functions =
      (analyzedFunctionEntries exT exTests files).length := by
  obtain ⟨h1, h2, h3, h4, h5, h6⟩ :=
    foldl_processFileFunctions_fields exT exTests files initResults
  refine ⟨?_, ?_, ?_, ?_, ?_, ?_⟩ <;> simp only [analyze_functions]
  · rw [h1]; simp [initResults]
  · rw [h2]; simp [initResults]
  · rw [h3]; simp [initResults]
  · rw [h4]; simp [initResults]
  · rw [h5]; simp [initResults]
  · rw [h6]; simp [initResults]

/-- Ensuring edge endpoints never changes the edge list. -/
theorem ensure_ensure_edges (G : Graph) (u v : String) :
    ((G.ensureNode u).ensureNode v).edges = G.edges := by
  rw [Graph.ensureNode, Graph.ensureNode]
  split <;> split <;> rfl

theorem ensure_hasEdge (G : Graph) (u v : String) :
    ((G.ensureNode u).ensureNode v).hasEdge u v = G.hasEdge u v := by
  rw [Graph.hasEdge, Graph.hasEdge, ensure_ensure_edges]

theorem add_edge_keeps_imports_edge (G : Graph) (u v : String) (a' : EdgeAttrs)
    (ha' : a'.relationship = some "imports") (u' v' : String)
    (h : ∃ a, (u', v', a) ∈ G.edges ∧ a.relationship = some "imports") :
    ∃ a, (u', v', a) ∈ (G.add_edge u v a').edges ∧ a.relationship = some "imports" := by
  obtain ⟨a, hm, hr⟩ := h
  rw [Graph.add_edge]
  by_cases hE : ((G.ensureNode u).ensureNode v).hasEdge u v = true
  · simp only [hE, if_true]
    rw [ensure_ensure_edges]
    by_cases hc : (u' = u ∧ v' = v)
    · obtain ⟨hc1, hc2⟩ := hc
      subst hc1
      subst hc2
      refine ⟨a.updateWith a', ?_, ?_⟩
      · have := List.mem_map_of_mem (fun e =>
          if e.1 = u' && e.2.1 = v' then (e.1, e.2.1, e.2.2.updateWith a') else e) hm
        simpa using this
      · rw [EdgeAttrs.updateWith]
        simp [ha']
    · refine ⟨a, ?_, hr⟩
      have := List.mem_map_of_mem (fun e =>
        if e.1 = u && e.2.1 = v then (e.1, e.2.1, e.2.2.updateWith a') else e) hm
      have hcb : ((u', v', a).1 = u && (u', v', a).2.1 = v) = false := by
        simp only [Bool.and_eq_false_iff]
        by_cases h1 : u' = u
        · right
          simp only [decide_eq_false_iff_not]
          intro h2
          exact hc ⟨h1, h2⟩
        · left
          simp [h1]
      simp only [hcb, if_false] at this
      simpa using this
  · simp only [hE, if_false]
    rw [ensure_ensure_edges]
    exact ⟨a, List.mem_append_left _ hm, hr⟩

theorem add_edge_gives_imports_edge (G : Graph) (u v : String) (a : EdgeAttrs)
    (ha : a.relationship = some "imports") :
    ∃ b, (u, v, b) ∈ (G.add_edge u v a).edges ∧ b.relationship = some "imports" := by
  rw [Graph.add_edge]
  by_cases hE : ((G.ensureNode u).ensureNode v).hasEdge u v = true
  · simp only [hE, if_true]
    rw [ensure_ensure_edges]
    have hE' : G.hasEdge u v = true := by rw [← ensure_hasEdge G u v]; exact hE
    obtain ⟨a0, hm⟩ := (hasEdge_iff G u v).1 hE'
    refine ⟨a0.updateWith a, ?_, ?_⟩
    · have := List.mem_map_of_mem (fun e =>
        if e.1 = u && e.2.1 = v then (e.1, e.2.1, e.2.2.updateWith a) else e) hm
      simpa using this
    · rw [EdgeAttrs.updateWith]
      simp [ha]
  · simp only [hE, if_false]
    rw [ensure_ensure_edges]
    exact ⟨a, List.mem_append_right _ (by simp), ha⟩

theorem mem_nodes_add_edge_mono (G : Graph) (u v : String) (a : EdgeAttrs)
    {x : String × NodeAttrs} (hx : x ∈ G.nodes) : x ∈ (G.add_edge u v a).nodes := by
  have h1 : x ∈ (G.ensureNode u).nodes := by
    rw [Graph.ensureNode]
    split
    · exact hx
    · exact List.mem_append_left _ hx
  have h2 : x ∈ ((G.ensureNode u).ensureNode v).nodes := by
    rw [Graph.ensureNode]
    split
    · exact h1
    · exact List.mem_append_left _ h1
  rw [Graph.add_edge]
  split <;> exact h2

theorem add_node_keeps_external_node (G : Graph) (id : String) (a : NodeAttrs)
    (ha : a.nodeKind = none ∨ a.nodeKind = some "external") (m : String)
    (h : ∃ na, (externalId m, na) ∈ G.nodes ∧ na.nodeKind = some "external") :
    ∃ na, (externalId m, na) ∈ (G.add_node id a).nodes ∧
      na.nodeKind = some "external" := by
  obtain ⟨na, hm, hk⟩ := h
  by_cases hc : externalId m = id
  · refine ⟨na.updateWith a, ?_, ?_⟩
    · rw [Graph.add_node]
      have hhas : G.hasNode id = true := by
        rw [← hc]
        exact hasNode_of_mem G hm
      rw [hhas, if_pos rfl]
      have := List.mem_map_of_mem (fun x =>
        if x.1 = id then (x.1, x.2.updateWith a) else x) hm
      simp only [hc, if_true] at this
      simpa [hc] using this
    · rw [NodeAttrs.updateWith]
      rcases ha with h1 | h1 <;> simp [h1, hk]
  · exact ⟨na, add_node_mem_of_ne G id a hm hc, hk⟩

theorem processImport_keeps_external_node (keys : List String) (fp : String)
    (G : Graph) (imp : ImportRec) (m : String)
    (h : ∃ na, (externalId m, na) ∈ G.nodes ∧ na.nodeKind = some "external") :
    ∃ na, (externalId m, na) ∈ (processImport keys fp G imp).nodes ∧
      na.nodeKind = some "external" := by
  rw [processImport]
  cases hf : keys.find? (fun p => moduleMatches imp.module p) with
  | some q =>
    obtain ⟨na, hm, hk⟩ := h
    exact ⟨na, mem_nodes_add_edge_mono _ _ _ _ hm, hk⟩
  | none =>
    simp only
    have h1 : ∃ na, (externalId m, na) ∈
        (if G.hasNode (externalId imp.module) = true then G
         else G.add_node (externalId imp.module)
           { nodeKind := some "external", module := some imp.module }).nodes ∧
        na.nodeKind = some "external" := by
      split
      · exact h
      · exact add_node_keeps_external_node G (externalId imp.module) _
          (Or.inr rfl) m h
    obtain ⟨na, hm, hk⟩ := h1
    exact ⟨na, mem_nodes_add_edge_mono _ _ _ _ hm, hk⟩

theorem processImport_keeps_imports_edge (keys : List String) (fp : String)
    (G : Graph) (imp : ImportRec) (u' v' : String)
    (h : ∃ a, (u', v', a) ∈ G.edges ∧ a.relationship = some "imports") :
    ∃ a, (u', v', a) ∈ (processImport keys fp G imp).edges ∧
      a.relationship = some "imports" := by
  rw [processImport]
  cases hf : keys.find? (fun p => moduleMatches imp.module p) with
  | some q => exact add_edge_keeps_imports_edge G fp q _ rfl u' v' h
  | none =>
    simp only
    apply add_edge_keeps_imports_edge _ fp (externalId imp.module) _ rfl u' v'
    split
    · exact h
    · obtain ⟨a, hm, hr⟩ := h
      rw [add_node_edges]
      exact ⟨a, hm, hr⟩

theorem external_node_typed {done : List String} {G : Graph} (hdo : DoneOk done)
    (inv : GInv done G) (m : String) {na : NodeAttrs}
    (hm : (externalId m, na) ∈ G.nodes) : na.nodeKind = some "external" := by
  rcases inv.nodeShape _ hm with h | h | h
  · exfalso
    exact externalId_ne_colonFree m (externalId m) (hdo.cf _ h.2) rfl
  · exfalso
    obtain ⟨_, p, n, h1, h2, _⟩ := h
    exact hdo.nex p h2 (entityId_eq_externalId p n m (hdo.cf p h2) h1.symm)
  · exact h.1

theorem processImport_establishes {done : List String} {G : Graph}
    (hdo : DoneOk done) (inv : GInv done G) (fp : String) (hf : fp ∈ done)
    (imp : ImportRec) :
    resolutionProp done (processImport done fp G imp) fp imp := by
  constructor
  · intro q hq
    rw [processImport, hq]
    exact add_edge_gives_imports_edge G fp q _ rfl
  · intro hq
    rw [processImport, hq]
    simp only
    constructor
    · have h1 : ∃ na, (externalId imp.module, na) ∈
          (if G.hasNode (externalId imp.module) = true then G
           else G.add_node (externalId imp.module)
             { nodeKind := some "external", module := some imp.module }).nodes ∧
          na.nodeKind = some "external" := by
        by_cases hh : G.hasNode (externalId imp.module) = true
        · rw [if_pos hh]
          obtain ⟨y, hy, hy1⟩ := List.mem_map.1 ((hasNode_iff G _).1 hh)
          have hy2 : (externalId imp.module, y.2) ∈ G.nodes := by
            rw [← hy1]
            exact hy
          exact ⟨y.2, hy2, external_node_typed hdo inv imp.module hy2⟩
        · simp only [hh, Bool.false_eq_true, if_false]
          exact ⟨_, add_node_self_mem G _ _ (by
            cases hhh : G.hasNode (externalId imp.module) with
            | false => rfl
            | true => exact absurd hhh hh), rfl⟩
      obtain ⟨na, hm, hk⟩ := h1
      exact ⟨na, mem_nodes_add_edge_mono _ _ _ _ hm, hk⟩
    · exact add_edge_gives_imports_edge _ fp (externalId imp.module) _ rfl

theorem processImport_keeps_resolution (keys : List String) (fp' : String)
    (G : Graph) (imp' : ImportRec) (fp : String) (imp : ImportRec)
    (h : resolutionProp keys G fp imp) :
    resolutionProp keys (processImport keys fp' G imp') fp imp := by
  constructor
  · intro q hq
    exact processImport_keeps_imports_edge keys fp' G imp' fp q (h.1 q hq)
  · intro hq
    obtain ⟨hn, he⟩ := h.2 hq
    exact ⟨processImport_keeps_external_node keys fp' G imp' imp.module hn,
      processImport_keeps_imports_edge keys fp' G imp' fp _ he⟩

theorem imports_foldl_keeps_resolution (keys : List String) (fp' : String)
    (imps : List ImportRec) :
    ∀ (G : Graph) (fp : String) (imp : ImportRec), resolutionProp keys G fp imp →
    resolutionProp keys (imps.foldl (processImport keys fp') G) fp imp := by
  induction imps with
  | nil => intro G fp imp h; exact h
  | cons i is ih =>
    intro G fp imp h
    exact ih _ fp imp (processImport_keeps_resolution keys fp' G i fp imp h)

theorem imports_foldl_establishes {done : List String} (hdo : DoneOk done)
    (fp : String) (hf : fp ∈ done) (imps : List ImportRec) :
    ∀ (G : Graph), GInv done G → ∀ imp ∈ imps,
    resolutionProp done (imps.foldl (processImport done fp) G) fp imp := by
  induction imps with
  | nil => intro G _ imp h; cases h
  | cons i is ih =>
    intro G inv imp hmem
    rw [List.foldl_cons]
    rcases List.mem_cons.1 hmem with h | h
    · rw [h]
      exact imports_foldl_keeps_resolution done fp is _ fp i
        (processImport_establishes hdo inv fp hf i)
    · exact ih _ (processImport_inv hdo inv fp hf i) imp h

theorem pass2_foldl_keeps_resolution (keys : List String)
    (l : List (String × FileData)) :
    ∀ (G : Graph) (fp : String) (imp : ImportRec), resolutionProp keys G fp imp →
    resolutionProp keys
      (l.foldl (fun G pd => pd.2.imports.foldl (processImport keys pd.1) G) G)
      fp imp := by
  induction l with
  | nil => exact fun G fp imp h => h
  | cons r rs ih =>
    intro G fp imp h
    rw [List.foldl_cons]
    exact ih _ fp imp (imports_foldl_keeps_resolution keys r.1 r.2.imports G fp imp h)

theorem pass2_foldl_establishes {done : List String} (hdo : DoneOk done)
    (l : List (String × FileData)) :
    ∀ (G : Graph), GInv done G → (∀ pd ∈ l, pd.1 ∈ done) →
    ∀ pd ∈ l, ∀ imp ∈ pd.2.imports,
    resolutionProp done
      (l.foldl (fun G pd => pd.2.imports.foldl (processImport done pd.1) G) G)
      pd.1 imp := by
  induction l with
  | nil => intro G _ _ pd h; cases h
  | cons hd rest ih =>
    intro G inv hmem pd hpd imp himp
    rw [List.foldl_cons]
    rcases List.mem_cons.1 hpd with h | h
    · subst h
      exact pass2_foldl_keeps_resolution done rest _ pd.1 imp
        (imports_foldl_establishes hdo pd.1 (hmem pd (by simp)) pd.2.imports G inv
          imp himp)
    · exact ih _ (imports_foldl_inv hdo hd.1 (hmem hd (by simp)) hd.2.imports G inv)
        (fun q hq => hmem q (by simp [hq])) pd h imp himp

theorem countP_pair_eq_one (l : List GEdge)
    (hnd : (l.map (fun e => (e.1, e.2.1))).Nodup) :
    ∀ {u v : String} {a : EdgeAttrs}, (u, v, a) ∈ l →
    l.countP (fun e => decide (e.1 = u ∧ e.2.1 = v)) = 1 := by
  induction l with
  | nil => intro u v a hm; cases hm
  | cons e es ih =>
    intro u v a hm
    simp only [List.map_cons, List.nodup_cons] at hnd
    rw [List.countP_cons]
    rcases List.mem_cons.1 hm with h | h
    · have hz : es.countP (fun e => decide (e.1 = u ∧ e.2.1 = v)) = 0 := by
        rw [List.countP_eq_zero]
        intro e' he' hc
        simp only [decide_eq_true_eq] at hc
        apply hnd.1
        have : (e'.1, e'.2.1) = (e.1, e.2.1) := by
          rw [hc.1, hc.2, ← h]
        rw [← this]
        exact List.mem_map_of_mem _ he'
      rw [hz]
      have : (decide (e.1 = u ∧ e.2.1 = v)) = true := by
        rw [← h]
        simp
      rw [this]
      simp
    · have hnm : (decide (e.1 = u ∧ e.2.1 = v)) = false := by
        simp only [decide_eq_false_iff_not]
        intro hc
        apply hnd.1
        have : (e.1, e.2.1) = (u, v) := by rw [hc.1, hc.2]
        rw [this]
        have : (u, v) = ((u, v, a).1, (u, v, a).2.1) := rfl
        rw [this]
        exact List.mem_map_of_mem _ h
      rw [hnm, ih hnd.2 h]
      simp

/-- C2 amended: pass 2 resolves each (file, import) pair by scanning the
known file paths in insertion order for the first path containing the
module with dots-as-slashes as a substring, or containing the last dotted
component as a substring (moduleMatches); on a match the graph holds one
imports edge to that file (one edge per (source, target) pair), otherwise
an external node is created or reused with an imports edge to it. In the
scenario of the claim, pkg/a.py with `from .b import x` records module
"x" and receives an imports edge to external::x, not to pkg/b.py. -/
theorem claim_C2_import_resolution_amended (files : List FileInput) (et : Bool)
    (hcf : ∀ f ∈ files, colonFree f.relPath = true)
    (hne : ∀ f ∈ files, f.relPath ≠ "external")
    (hnd : (files.map FileInput.relPath).Nodup) :
    (∀ pd ∈ (build_dependency_graph files et).2, ∀ imp ∈ pd.2.imports,
      resolutionProp ((build_dependency_graph files et).2.map (fun x => x.1))
        (build_dependency_graph files et).1 pd.1 imp) ∧
    (∀ u v : String, ∀ a : EdgeAttrs,
      (u, v, a) ∈ (build_dependency_graph files et).1.edges →
      (build_dependency_graph files et).1.edges.countP
        (fun e => decide (e.1 = u ∧ e.2.1 = v)) = 1) ∧
    (extract_python_imports cstModuleDotB).map ImportRec.module = ["x"] ∧
    (∃ a, ("pkg/a.py", "external::x", a) ∈
        (build_dependency_graph [pkgAFile, pkgBFile] true).1.edges ∧
      a.relationship = some "imports") := by
  have hdo0 : DoneOk ((Graph.empty, ([] : List (String × FileData))).2.map
      (fun x => x.1)) := by
    refine ⟨?_, ?_, ?_⟩
    · intro p hp; cases hp
    · intro p hp; cases hp
    · exact List.nodup_nil
  have hinv0 : GInv ((Graph.empty, ([] : List (String × FileData))).2.map
      (fun x => x.1)) (Graph.empty, ([] : List (String × FileData))).1 := GInv.empty
  obtain ⟨hdo, hinv, _⟩ := pass1_inv et files (Graph.empty, []) hdo0 hinv0 hcf hne hnd
    (by intro f _ hmem; cases hmem)
  obtain ⟨_, hinvB⟩ := build_inv files et hcf hne hnd
  refine ⟨?_, ?_, by decide, ?_⟩
  · intro pd hpd imp himp
    rw [build_dependency_graph] at hpd ⊢
    simp only at hpd ⊢
    rw [pass2]
    exact pass2_foldl_establishes hdo _ _ hinv
      (fun q hq => List.mem_map_of_mem _ hq) pd hpd imp himp
  · intro u v a hm
    exact countP_pair_eq_one _ hinvB.nodupE hm
  · exact ⟨{ relationship := some "imports", module := some "x" }, by decide, rfl⟩

theorem claim_C2_import_resolution_amended_witness :
    ∃ a, ("pkg/a.py", "external::x", a) ∈
        (build_dependency_graph [pkgAFile, pkgBFile] true).1.edges ∧
      a.relationship = some "imports" :=
  (claim_C2_import_resolution_amended [pkgAFile, pkgBFile] true (by decide)
    (by decide) (by decide)).2.2.2

theorem impAttrs_update_self (m : String) :
    (impAttrs m).updateWith (impAttrs m) = impAttrs m := rfl

theorem add_edge_edges_cases (G : Graph) (u v : String) (a : EdgeAttrs) :
    (G.add_edge u v a).edges =
      if G.hasEdge u v = true then
        G.edges.map (fun e => if e.1 = u && e.2.1 = v then
          (e.1, e.2.1, e.2.2.updateWith a) else e)
      else G.edges ++ [(u, v, a)] := by
  rw [Graph.add_edge]
  by_cases hE : G.hasEdge u v = true
  · have hE2 : ((G.ensureNode u).ensureNode v).hasEdge u v = true := by
      rw [ensure_hasEdge]; exact hE
    simp only [hE, hE2, if_true]
    rw [ensure_ensure_edges]
  · have hE2 : ((G.ensureNode u).ensureNode v).hasEdge u v = false := by
      rw [ensure_hasEdge]
      cases h : G.hasEdge u v with
      | false => rfl
      | true => exact absurd h hE
    simp only [hE, hE2, Bool.false_eq_true, if_false]
    rw [ensure_ensure_edges]

theorem add_edge_filterExt_ne (G : Graph) (u v : String) (a : EdgeAttrs)
    (m : String) (hvt : v ≠ externalId m) :
    filterExt m (G.add_edge u v a) = filterExt m G := by
  rw [filterExt, filterExt, add_edge_edges_cases]
  split
  · exact filter_target_map_update G.edges u v (externalId m) a hvt
  · rw [List.filter_append]
    rw [show List.filter (fun e => decide (e.2.1 = externalId m)) [(u, v, a)] = []
      from by simp [hvt]]
    simp

theorem addEntity_all_defines (p tag : String) (G : Graph) (nm : String)
    (h : ∀ e ∈ G.edges, e.2.2 = definesAttrs) :
    ∀ e ∈ (addEntity p tag G nm).edges, e.2.2 = definesAttrs := by
  intro e he
  rw [addEntity] at he
  set G1 := G.add_node (entityId p nm)
    { nodeKind := some tag, name := some nm, file := some p } with hG1
  have hG1e : G1.edges = G.edges := add_node_edges _ _ _
  rw [add_edge_edges_cases, hG1e] at he
  by_cases hE : G1.hasEdge p (entityId p nm) = true
  · rw [if_pos hE] at he
    obtain ⟨f, hf, hef⟩ := List.mem_map.1 he
    by_cases hc : (f.1 = p && f.2.1 = entityId p nm) = true
    · rw [if_pos hc] at hef
      rw [← hef]
      rw [show f.2.2 = definesAttrs from h f hf]
      exact definesAttrs_update_self
    · rw [if_neg hc] at hef
      rw [← hef]
      exact h f hf
  · rw [if_neg hE] at he
    rcases List.mem_append.1 he with h1 | h1
    · exact h e h1
    · rw [List.mem_singleton.1 h1]
      rfl

theorem processFile_all_defines (et : Bool) (st : Graph × List (String × FileData))
    (f : FileInput) (h : ∀ e ∈ st.1.edges, e.2.2 = definesAttrs) :
    ∀ e ∈ (processFile et st f).1.edges, e.2.2 = definesAttrs := by
  rw [processFile]
  split_ifs with h1 h2 h3
  · exact h
  · exact h
  · cases hp : f.parsed with
    | none => exact h
    | some tree =>
      simp only
      have hstep : ∀ (names : List String) (tag : String) (G : Graph),
          (∀ e ∈ G.edges, e.2.2 = definesAttrs) →
          ∀ e ∈ (names.foldl (addEntity f.relPath tag) G).edges,
            e.2.2 = definesAttrs := by
        intro names
        induction names with
        | nil => intro tag G hG e he; exact hG e he
        | cons nm ns ih =>
          intro tag G hG e he
          exact ih tag _ (addEntity_all_defines f.relPath tag G nm hG) e he
      apply hstep
      apply hstep
      intro e he
      rw [add_node_edges] at he
      exact h e he
  · exact h

theorem pass1_all_defines (et : Bool) (files : List FileInput) :
    ∀ (st : Graph × List (String × FileData)),
    (∀ e ∈ st.1.edges, e.2.2 = definesAttrs) →
    ∀ e ∈ (files.foldl (processFile et) st).1.edges, e.2.2 = definesAttrs := by
  induction files with
  | nil => intro st h; exact h
  | cons f fs ih =>
    intro st h
    exact ih _ (processFile_all_defines et st f h)

theorem pass1_filterExt_nil {done : List String} (hdo : DoneOk done) {G : Graph}
    (inv : GInv done G) (hdef : ∀ e ∈ G.edges, e.2.2 = definesAttrs) (m : String) :
    filterExt m G = [] := by
  rw [filterExt, List.filter_eq_nil_iff]
  intro e he hc
  simp only [decide_eq_true_eq] at hc
  obtain ⟨h1, h2⟩ := inv.edgeShape e he
  rcases h2 with h | h | h
  · obtain ⟨n, hn, _⟩ := h
    rw [hc] at hn
    exact hdo.nex e.1 h1 (entityId_eq_externalId e.1 n m (hdo.cf e.1 h1) hn.symm)
  · rw [hc] at h
    exact externalId_ne_colonFree m _ (hdo.cf _ h.1) rfl
  · have := hdef e he
    rw [this] at h
    have h2 := h.2
    rw [definesAttrs] at h2
    simp at h2

theorem hasEdge_iff_mem_filterExt (G : Graph) (m : String) (fp : String)
    (S : List String)
    (hchar : filterExt m G = S.map (fun p => (p, externalId m, impAttrs m))) :
    G.hasEdge fp (externalId m) = true ↔ fp ∈ S := by
  constructor
  · intro h
    obtain ⟨a, hm⟩ := (hasEdge_iff G fp (externalId m)).1 h
    have : (fp, externalId m, a) ∈ filterExt m G := by
      rw [filterExt]
      exact List.mem_filter.2 ⟨hm, by simp⟩
    rw [hchar] at this
    obtain ⟨p, hp, hpe⟩ := List.mem_map.1 this
    have hpf : p = fp := by
      have h2 := congrArg Prod.fst hpe
      simpa using h2
    rw [← hpf]
    exact hp
  · intro h
    apply (hasEdge_iff G fp (externalId m)).2
    refine ⟨impAttrs m, ?_⟩
    have : (fp, externalId m, impAttrs m) ∈ filterExt m G := by
      rw [hchar]
      exact List.mem_map_of_mem _ h
    rw [filterExt] at this
    exact List.mem_of_mem_filter this

theorem filter_target_map_update_comm (l : List GEdge) (u v : String)
    (a : EdgeAttrs) (t : String) :
    (l.map (fun e => if e.1 = u && e.2.1 = v then (e.1, e.2.1, e.2.2.updateWith a)
      else e)).filter (fun e => e.2.1 = t) =
    (l.filter (fun e => e.2.1 = t)).map (fun e =>
      if e.1 = u && e.2.1 = v then (e.1, e.2.1, e.2.2.updateWith a) else e) := by
  rw [List.filter_map]
  rw [List.filter_congr (q := fun e => decide (e.2.1 = t)) (fun e _ => by
    simp only [Function.comp]
    rw [(update_edge_preserves_key u v a e).2])]

theorem processImport_filterExt_self (keys : List String) (fp : String) (G : Graph)
    (imp : ImportRec) (m : String) (heq : imp.module = m)
    (hnores : ∀ q ∈ keys, moduleMatches m q = false)
    (S : List String)
    (hchar : filterExt m G = S.map (fun p => (p, externalId m, impAttrs m))) :
    filterExt m (processImport keys fp G imp) =
      (if fp ∈ S then S else S ++ [fp]).map
        (fun p => (p, externalId m, impAttrs m)) := by
  subst heq
  have hfind : keys.find? (fun p => moduleMatches imp.module p) = none :=
    List.find?_eq_none.2 (fun q hq => by simp [hnores q hq])
  rw [processImport, hfind]
  simp only
  set ext := externalId imp.module with hext
  set G1 := if G.hasNode ext = true then G
    else G.add_node ext { nodeKind := some "external", module := some imp.module }
    with hG1
  have hG1e : G1.edges = G.edges := by
    rw [hG1]
    split
    · rfl
    · exact add_node_edges _ _ _
  have hfe : filterExt imp.module G1 = S.map
      (fun p => (p, ext, impAttrs imp.module)) := by
    rw [filterExt, hG1e, ← filterExt, hchar]
  have hhe : G1.hasEdge fp ext = G.hasEdge fp ext := by
    rw [Graph.hasEdge, Graph.hasEdge, hG1e]
  have hEiff := hasEdge_iff_mem_filterExt G imp.module fp S hchar
  rw [show ({ relationship := some "imports", module := some imp.module } : EdgeAttrs)
    = impAttrs imp.module from rfl]
  by_cases hfp : fp ∈ S
  · rw [if_pos hfp]
    have hE : G1.hasEdge fp ext = true := by rw [hhe]; exact hEiff.2 hfp
    rw [filterExt, add_edge_edges_cases, if_pos hE, hG1e]
    rw [filter_target_map_update_comm]
    rw [show List.filter (fun e => decide (e.2.1 = ext)) G.edges =
      filterExt imp.module G from rfl]
    rw [hchar, List.map_map]
    apply List.map_congr_left
    intro p _
    simp only [Function.comp]
    by_cases hc : p = fp
    · subst hc
      simp [impAttrs_update_self]
    · simp [hc]
  · rw [if_neg hfp]
    have hE : G1.hasEdge fp ext = false := by
      rw [hhe]
      cases hh : G.hasEdge fp ext with
      | false => rfl
      | true => exact absurd (hEiff.1 hh) hfp
    rw [filterExt, add_edge_edges_cases, hE]
    simp only [Bool.false_eq_true, if_false]
    rw [List.filter_append, hG1e]
    rw [show List.filter (fun e => decide (e.2.1 = ext)) G.edges =
      filterExt imp.module G from rfl]
    rw [hchar, List.map_append]
    simp

theorem processImport_filterExt_other (keys : List String) (fp : String) (G : Graph)
    (imp : ImportRec) (m : String) (hne : imp.module ≠ m)
    (hkeyscf : ∀ q ∈ keys, colonFree q = true) :
    filterExt m (processImport keys fp G imp) = filterExt m G := by
  rw [processImport]
  cases hfind : keys.find? (fun p => moduleMatches imp.module p) with
  | some q =>
    have hq : q ∈ keys := List.mem_of_find?_eq_some hfind
    exact add_edge_filterExt_ne G fp q _ m
      (fun hh => externalId_ne_colonFree m q (hkeyscf q hq) hh.symm)
  | none =>
    simp only
    have h1 : filterExt m (if G.hasNode (externalId imp.module) = true then G
        else G.add_node (externalId imp.module)
          { nodeKind := some "external", module := some imp.module }) =
        filterExt m G := by
      rw [filterExt, filterExt]
      congr 1
      split
      · rfl
      · exact add_node_edges _ _ _
    rw [add_edge_filterExt_ne _ fp (externalId imp.module) _ m
      (fun hh => hne (externalId_inj _ _ hh)), h1]

theorem imports_foldl_filterExt (keys : List String) (fp : String) (m : String)
    (hnores : ∀ q ∈ keys, moduleMatches m q = false)
    (hkeyscf : ∀ q ∈ keys, colonFree q = true) :
    ∀ (imps : List ImportRec) (G : Graph) (S : List String),
    filterExt m G = S.map (fun p => (p, externalId m, impAttrs m)) →
    filterExt m (imps.foldl (processImport keys fp) G) =
      (if (imps.any (fun i => i.module = m)) = true ∧ fp ∉ S then S ++ [fp]
       else S).map (fun p => (p, externalId m, impAttrs m)) := by
  intro imps
  induction imps with
  | nil =>
    intro G S h
    simp only [List.foldl_nil, List.any_nil]
    rw [if_neg (fun hh => by exact absurd hh.1 (by simp))]
    exact h
  | cons i is ih =>
    intro G S h
    rw [List.foldl_cons]
    by_cases him : i.module = m
    · have hstep := processImport_filterExt_self keys fp G i m him hnores S h
      by_cases hfp : fp ∈ S
      · rw [if_pos hfp] at hstep
        rw [ih _ S hstep]
        rw [if_neg (fun hh => hh.2 hfp), if_neg (fun hh => hh.2 hfp)]
      · rw [if_neg hfp] at hstep
        rw [ih _ (S ++ [fp]) hstep]
        rw [if_neg (fun hh => hh.2 (by simp))]
        rw [if_pos ⟨by simp [him], hfp⟩]
    · have hstep2 : filterExt m (processImport keys fp G i) =
          S.map (fun p => (p, externalId m, impAttrs m)) := by
        rw [processImport_filterExt_other keys fp G i m him hkeyscf]
        exact h
      rw [ih _ S hstep2]
      have hany : ((i :: is).any (fun i => decide (i.module = m))) =
          (is.any (fun i => decide (i.module = m))) := by
        simp [him]
      rw [hany]

theorem importersOf_cons (pd : String × FileData) (rest : List (String × FileData))
    (m : String) :
    importersOf (pd :: rest) m =
      (if (pd.2.imports.any (fun i => i.module = m)) = true
       then [pd.1] else []) ++ importersOf rest m := by
  rw [importersOf, importersOf, List.filter_cons]
  split
  · simp
  · simp

theorem pass2_foldl_filterExt (keys : List String) (m : String)
    (hnores : ∀ q ∈ keys, moduleMatches m q = false)
    (hkeyscf : ∀ q ∈ keys, colonFree q = true) :
    ∀ (l : List (String × FileData)) (G : Graph) (S : List String),
    filterExt m G = S.map (fun p => (p, externalId m, impAttrs m)) →
    (∀ pd ∈ l, pd.1 ∉ S) →
    (l.map (fun x => x.1)).Nodup →
    filterExt m (l.foldl
      (fun G pd => pd.2.imports.foldl (processImport keys pd.1) G) G) =
      (S ++ importersOf l m).map (fun p => (p, externalId m, impAttrs m)) := by
  intro l
  induction l with
  | nil =>
    intro G S h _ _
    simp only [List.foldl_nil, importersOf, List.filter_nil, List.map_nil,
      List.append_nil]
    exact h
  | cons pd rest ih =>
    intro G S h hdisj hnd
    rw [List.foldl_cons]
    have hstep := imports_foldl_filterExt keys pd.1 m hnores hkeyscf
      pd.2.imports G S h
    rw [List.map_cons, List.nodup_cons] at hnd
    by_cases hany : (pd.2.imports.any (fun i => i.module = m)) = true
    · rw [if_pos ⟨hany, hdisj pd (by simp)⟩] at hstep
      have hdisj' : ∀ q ∈ rest, q.1 ∉ S ++ [pd.1] := by
        intro q hq hmem
        rcases List.mem_append.1 hmem with hmem | hmem
        · exact hdisj q (by simp [hq]) hmem
        · exact hnd.1 (by
            have hq1 : q.1 = pd.1 := by simpa using hmem
            rw [← hq1]
            exact List.mem_map.2 ⟨q, hq, rfl⟩)
      rw [ih _ (S ++ [pd.1]) hstep hdisj' hnd.2]
      rw [importersOf_cons, if_pos hany]
      simp
    · rw [if_neg (fun hh => hany hh.1)] at hstep
      rw [ih _ S hstep (fun q hq => hdisj q (by simp [hq])) hnd.2]
      rw [importersOf_cons, if_neg hany]
      simp

theorem countP_fst_eq_one (l : List (String × NodeAttrs))
    (hnd : (l.map (fun x => x.1)).Nodup) :
    ∀ {id : String} {a : NodeAttrs}, (id, a) ∈ l →
    l.countP (fun x => decide (x.1 = id)) = 1 := by
  induction l with
  | nil => intro id a hm; cases hm
  | cons x xs ih =>
    intro id a hm
    simp only [List.map_cons, List.nodup_cons] at hnd
    rw [List.countP_cons]
    rcases List.mem_cons.1 hm with hm | hm
    · have hx1 : x.1 = id := by rw [← hm]
      have h0 : xs.countP (fun y => decide (y.1 = id)) = 0 := by
        rw [List.countP_eq_zero]
        intro y hy
        simp only [decide_eq_true_eq]
        intro hc
        apply hnd.1
        rw [hx1, ← hc]
        exact List.mem_map.2 ⟨y, hy, rfl⟩
      simp [h0, hx1]
    · have hx1 : ¬(x.1 = id) := by
        intro hc
        apply hnd.1
        rw [hc]
        exact List.mem_map.2 ⟨(id, a), hm, rfl⟩
      rw [ih hnd.2 hm]
      simp [hx1]

/-- C4: for every analysis run and every module string m that matches no
retained file path, the edges of the built graph whose target is the
external node id externalId m are exactly one per retained file that
recorded an import of m (in retention order, each with source that file,
target externalId m and the imports attributes), their number equals the
number of such importing files, and as soon as at least one file imports
m the node list contains exactly one node with id externalId m. -/
theorem claim_C4_external_node_unique (files : List FileInput) (et : Bool)
    (m : String)
    (hcf : ∀ f ∈ files, colonFree f.relPath = true)
    (hne : ∀ f ∈ files, f.relPath ≠ "external")
    (hnd : (files.map FileInput.relPath).Nodup)
    (hnores : ∀ f ∈ files, moduleMatches m f.relPath = false) :
    ((build_dependency_graph files et).1.edges.filter
        (fun e => e.2.1 = externalId m)) =
      (importersOf (build_dependency_graph files et).2 m).map
        (fun p => (p, externalId m, impAttrs m)) ∧
    ((build_dependency_graph files et).1.edges.filter
        (fun e => e.2.1 = externalId m)).length =
      (importersOf (build_dependency_graph files et).2 m).length ∧
    (importersOf (build_dependency_graph files et).2 m ≠ [] →
      (build_dependency_graph files et).1.nodes.countP
        (fun x => decide (x.1 = externalId m)) = 1) := by
  have hdo0 : DoneOk ((Graph.empty, ([] : List (String × FileData))).2.map
      (fun x => x.1)) := by
    refine ⟨?_, ?_, ?_⟩
    · intro p hp; cases hp
    · intro p hp; cases hp
    · exact List.nodup_nil
  have hinv0 : GInv ((Graph.empty, ([] : List (String × FileData))).2.map
      (fun x => x.1)) (Graph.empty, ([] : List (String × FileData))).1 := GInv.empty
  obtain ⟨hdo, hinv, hsub⟩ := pass1_inv et files (Graph.empty, []) hdo0 hinv0
    hcf hne hnd (by intro f _ hmem; cases hmem)
  set st := files.foldl (processFile et) (Graph.empty, []) with hst
  have hdef : ∀ e ∈ st.1.edges, e.2.2 = definesAttrs := by
    apply pass1_all_defines et files (Graph.empty, [])
    intro e he
    simp [Graph.empty] at he
  have hbase : filterExt m st.1 = ([] : List String).map
      (fun p => (p, externalId m, impAttrs m)) := by
    rw [pass1_filterExt_nil hdo hinv hdef m]
    rfl
  have hkeysnores : ∀ q ∈ st.2.map (fun x => x.1), moduleMatches m q = false := by
    intro q hq
    rcases hsub q hq with hq' | hq'
    · cases hq'
    · obtain ⟨f, hf, hfq⟩ := List.mem_map.1 hq'
      rw [← hfq]
      exact hnores f hf
  have hmain := pass2_foldl_filterExt (st.2.map (fun x => x.1)) m hkeysnores
    hdo.cf st.2 st.1 [] hbase (by intro pd _ h; cases h) hdo.nd
  have hbuild : build_dependency_graph files et = (pass2 st.1 st.2, st.2) := rfl
  have hfchar : (build_dependency_graph files et).1.edges.filter
      (fun e => e.2.1 = externalId m) =
      (importersOf (build_dependency_graph files et).2 m).map
        (fun p => (p, externalId m, impAttrs m)) := by
    rw [hbuild]
    show filterExt m (pass2 st.1 st.2) = _
    rw [pass2]
    rw [hmain]
    simp
  refine ⟨hfchar, by rw [hfchar, List.length_map], ?_⟩
  intro hnonnil
  obtain ⟨p, hp⟩ := List.exists_mem_of_ne_nil _ hnonnil
  have hmem : (p, externalId m, impAttrs m) ∈
      (build_dependency_graph files et).1.edges.filter
        (fun e => e.2.1 = externalId m) := by
    rw [hfchar]
    exact List.mem_map.2 ⟨p, hp, rfl⟩
  have hmemE : (p, externalId m, impAttrs m) ∈
      (build_dependency_graph files et).1.edges := List.mem_of_mem_filter hmem
  obtain ⟨_, hinvB⟩ := build_inv files et hcf hne hnd
  have hnode : (build_dependency_graph files et).1.hasNode (externalId m) = true :=
    hinvB.endpointsR _ hmemE
  have hidm := (hasNode_iff _ _).1 hnode
  obtain ⟨x, hx, hxe⟩ := List.mem_map.1 hidm
  have hna : (externalId m, x.2) ∈ (build_dependency_graph files et).1.nodes := by
    rw [← hxe]
    exact hx
  exact countP_fst_eq_one _ hinvB.nodupN hna

/-- Witness for C4: ten files importing numpy with no matching file in
the repo yield ten edges onto a single external numpy node. -/
theorem claim_C4_external_node_unique_witness :
    ((build_dependency_graph tenFiles true).1.edges.filter
        (fun e => e.2.1 = externalId "numpy")).length = 10 ∧
    (build_dependency_graph tenFiles true).1.nodes.countP
        (fun x => decide (x.1 = externalId "numpy")) = 1 := by
  have h := claim_C4_external_node_unique tenFiles true "numpy"
    (by decide) (by decide) (by decide) (by decide)
  refine ⟨?_, h.2.2 (by decide)⟩
  rw [h.1]
  decide

theorem processFile_thirdParty (et : Bool) (st : Graph × List (String × FileData))
    (f : FileInput) (hf : f.isThirdParty = true) :
    processFile et st f = st := by
  rw [processFile, hf]
  simp

theorem build_skip_thirdParty (pre post : List FileInput) (f : FileInput)
    (et : Bool) (hf : f.isThirdParty = true) :
    build_dependency_graph (pre ++ f :: post) et =
      build_dependency_graph (pre ++ post) et := by
  have h : (pre ++ f :: post).foldl (processFile et) (Graph.empty, []) =
      (pre ++ post).foldl (processFile et) (Graph.empty, []) := by
    rw [List.foldl_append, List.foldl_append, List.foldl_cons,
      processFile_thirdParty et _ f hf]
  exact congrArg (fun st => (pass2 st.1 st.2, st.2)) h

theorem find_fst_eq_of_nodup (l : List (String × NodeAttrs))
    (hnd : (l.map (fun x => x.1)).Nodup) {id : String} {a : NodeAttrs}
    (hm : (id, a) ∈ l) : l.find? (fun x => x.1 = id) = some (id, a) := by
  induction l with
  | nil => cases hm
  | cons x xs ih =>
    simp only [List.map_cons, List.nodup_cons] at hnd
    rcases List.mem_cons.1 hm with hm | hm
    · rw [← hm]
      rw [List.find?_cons_of_pos]
      simp
    · have hx : ¬(x.1 = id) := by
        intro hc
        apply hnd.1
        rw [hc]
        exact List.mem_map.2 ⟨(id, a), hm, rfl⟩
      rw [List.find?_cons_of_neg _ (by simpa using hx), ih hnd.2 hm]

theorem pair_eq_of_fst_nodup (l : List (String × NodeAttrs))
    (hnd : (l.map (fun x => x.1)).Nodup) {x y : String × NodeAttrs}
    (hx : x ∈ l) (hy : y ∈ l) (hfst : x.1 = y.1) : x = y := by
  have h1 : l.find? (fun z => z.1 = x.1) = some (x.1, x.2) :=
    find_fst_eq_of_nodup l hnd (by simpa using hx)
  have h2 : l.find? (fun z => z.1 = y.1) = some (y.1, y.2) :=
    find_fst_eq_of_nodup l hnd (by simpa using hy)
  rw [hfst] at h1
  rw [h1] at h2
  have := (Option.some_inj.1 h2)
  rw [show x = (x.1, x.2) from rfl, show y = (y.1, y.2) from rfl, hfst, this]

theorem mem_extIds_iff {G : Graph} (hnd : (G.nodes.map (fun x => x.1)).Nodup)
    {x : String × NodeAttrs} (hx : x ∈ G.nodes) :
    (x.1 ∈ (G.nodes.filter (fun y => y.2.nodeKind = some "external")).map
      (fun y => y.1)) ↔ x.2.nodeKind = some "external" := by
  constructor
  · intro h
    obtain ⟨y, hy, hyx⟩ := List.mem_map.1 h
    have hyG := List.mem_of_mem_filter hy
    have hxy := pair_eq_of_fst_nodup G.nodes hnd hyG hx hyx
    rw [← hxy]
    have := (List.mem_filter.1 hy).2
    simpa using this
  · intro h
    exact List.mem_map.2 ⟨x, List.mem_filter.2 ⟨hx, by simp [h]⟩, rfl⟩

theorem nodeTypeOf_eq_of_mem {G : Graph}
    (hnd : (G.nodes.map (fun x => x.1)).Nodup)
    {x : String × NodeAttrs} (hx : x ∈ G.nodes) :
    G.nodeTypeOf x.1 = x.2.nodeKind := by
  rw [Graph.nodeTypeOf, Graph.nodeAttrs,
    find_fst_eq_of_nodup G.nodes hnd (by simpa using hx)]
  rfl

theorem analysisGraph_true_nodes (files : List FileInput) (et : Bool)
    (hcf : ∀ f ∈ files, colonFree f.relPath = true)
    (hne : ∀ f ∈ files, f.relPath ≠ "external")
    (hnd : (files.map FileInput.relPath).Nodup) :
    (analysisGraph files true et).nodes =
      (build_dependency_graph files et).1.nodes.filter
        (fun x => !(x.2.nodeKind = some "external" : Bool)) := by
  obtain ⟨hdo, hinv⟩ := build_inv files et hcf hne hnd
  show ((build_dependency_graph files et).1.remove_nodes_from
    (((build_dependency_graph files et).1.nodes.filter
      (fun y => y.2.nodeKind = some "external")).map (fun y => y.1))).nodes = _
  rw [Graph.remove_nodes_from]
  apply List.filter_congr
  intro x hx
  have hiff := mem_extIds_iff hinv.nodupN hx
  by_cases h : x.2.nodeKind = some "external"
  · simp [h, hiff.2 h]
  · have hni : x.1 ∉ ((build_dependency_graph files et).1.nodes.filter
        (fun y => y.2.nodeKind = some "external")).map (fun y => y.1) :=
      fun hc => h (hiff.1 hc)
    simp [h, hni]

theorem analysisGraph_true_edges (files : List FileInput) (et : Bool)
    (hcf : ∀ f ∈ files, colonFree f.relPath = true)
    (hne : ∀ f ∈ files, f.relPath ≠ "external")
    (hnd : (files.map FileInput.relPath).Nodup) :
    (analysisGraph files true et).edges =
      (build_dependency_graph files et).1.edges.filter
        (fun e => !((build_dependency_graph files et).1.nodeTypeOf e.2.1
          = some "external" : Bool)) := by
  obtain ⟨hdo, hinv⟩ := build_inv files et hcf hne hnd
  show ((build_dependency_graph files et).1.remove_nodes_from
    (((build_dependency_graph files et).1.nodes.filter
      (fun y => y.2.nodeKind = some "external")).map (fun y => y.1))).edges = _
  rw [Graph.remove_nodes_from]
  apply List.filter_congr
  intro e he
  have hsrc : e.1 ∉ ((build_dependency_graph files et).1.nodes.filter
      (fun y => y.2.nodeKind = some "external")).map (fun y => y.1) := by
    intro hmem
    obtain ⟨y, hy, hyx⟩ := List.mem_map.1 hmem
    have hyG := List.mem_of_mem_filter hy
    have hyk : y.2.nodeKind = some "external" := by
      have := (List.mem_filter.1 hy).2
      simpa using this
    have hshape := hinv.nodeShape y hyG
    rcases hshape with h | h | h
    · rw [h.1] at hyk
      simp at hyk
    · rcases h.1 with h1 | h1 <;> rw [h1] at hyk <;> simp at hyk
    · obtain ⟨m, hm⟩ := h.2
      have hdone := (hinv.edgeShape e he).1
      have hcfe : colonFree e.1 = true := hdo.cf e.1 hdone
      exact externalId_ne_colonFree m e.1 hcfe (by rw [← hm, hyx])
  have hnodeT : (build_dependency_graph files et).1.hasNode e.2.1 = true :=
    hinv.endpointsR e he
  obtain ⟨x, hxG, hxe⟩ : ∃ x, x ∈ (build_dependency_graph files et).1.nodes ∧
      x.1 = e.2.1 := by
    have := (hasNode_iff _ _).1 hnodeT
    obtain ⟨x, hx1, hx2⟩ := List.mem_map.1 this
    exact ⟨x, hx1, hx2⟩
  have htyp : (build_dependency_graph files et).1.nodeTypeOf e.2.1 =
      x.2.nodeKind := by
    rw [← hxe]
    exact nodeTypeOf_eq_of_mem hinv.nodupN hxG
  have hiff := mem_extIds_iff hinv.nodupN hxG
  rw [hxe] at hiff
  by_cases h : x.2.nodeKind = some "external"
  · have htgt := hiff.2 h
    rw [htyp, h]
    simp [htgt]
  · have htgt : e.2.1 ∉ ((build_dependency_graph files et).1.nodes.filter
        (fun y => y.2.nodeKind = some "external")).map (fun y => y.1) :=
      fun hc => h (hiff.1 hc)
    rw [htyp]
    simp [h, hsrc, htgt]

/-- C10: the third-party flag is a pure post-filter. Third-party files
are skipped during graph building unconditionally (removing one from the
walk changes nothing), the flag-false analysis graph is the built graph
itself, the flag-true analysis graph keeps exactly the non-external nodes
and exactly the edges whose target is not an external node (sources are
files, never external, so these are all edges not incident to an external
node) -- in particular all file, function and class nodes, all defines
edges and all file-to-file imports edges survive unchanged -- and the
flag-true metrics report total_external_dependencies = 0. -/
theorem claim_C10_third_party_frame (files pre post : List FileInput)
    (f : FileInput) (et : Bool)
    (hcf : ∀ g ∈ files, colonFree g.relPath = true)
    (hne : ∀ g ∈ files, g.relPath ≠ "external")
    (hnd : (files.map FileInput.relPath).Nodup)
    (hf : f.isThirdParty = true) :
    build_dependency_graph (pre ++ f :: post) et =
      build_dependency_graph (pre ++ post) et ∧
    analysisGraph files false et = (build_dependency_graph files et).1 ∧
    (analysisGraph files true et).nodes =
      (build_dependency_graph files et).1.nodes.filter
        (fun x => !(x.2.nodeKind = some "external" : Bool)) ∧
    (analysisGraph files true et).edges =
      (build_dependency_graph files et).1.edges.filter
        (fun e => !((build_dependency_graph files et).1.nodeTypeOf e.2.1
          = some "external" : Bool)) ∧
    (analyze_dependencies files true et).total_external_dependencies = 0 := by
  refine ⟨build_skip_thirdParty pre post f et hf, rfl,
    analysisGraph_true_nodes files et hcf hne hnd,
    analysisGraph_true_edges files et hcf hne hnd, rfl⟩

/-- Witness for C10: a single third-party file builds the empty graph,
and the ten-numpy-importer repository keeps its ten file nodes and loses
exactly the external node and its ten incident edges under the flag. -/
theorem claim_C10_third_party_frame_witness :
    build_dependency_graph ([] ++ thirdPartyFile :: []) true =
      build_dependency_graph ([] ++ []) true ∧
    analysisGraph tenFiles false true = (build_dependency_graph tenFiles true).1 ∧
    (analysisGraph tenFiles true true).nodes =
      (build_dependency_graph tenFiles true).1.nodes.filter
        (fun x => !(x.2.nodeKind = some "external" : Bool)) ∧
    (analysisGraph tenFiles true true).edges =
      (build_dependency_graph tenFiles true).1.edges.filter
        (fun e => !((build_dependency_graph tenFiles true).1.nodeTypeOf e.2.1
          = some "external" : Bool)) ∧
    (analyze_dependencies tenFiles true true).total_external_dependencies = 0 :=
  claim_C10_third_party_frame tenFiles [] [] thirdPartyFile true
    (by decide) (by decide) (by decide) rfl
